import Mathlib

/-!
# pgglaskugel: archive and cleanup commands

A shallow embedding of `cmd/archive.go` and `cmd/cleanup.go`.

The two commands are sequential programs whose every step is a call to the
outside (file system, external processes, object store, backup catalog).
They are embedded as pure functions on an explicit state: the world the
command acts on together with the trace of the calls made so far. A call that
ends the process (`log.Fatal`, `os.Exit`) yields `Res.exit` with the exit code.
Goroutines that only copy a command's stderr to the log (`util.WatchOutput`)
appear as an event and have no other effect.

Code of the repository whose source is not available here (packages `backup`,
`wal`, `util`, `errorcheck`, and the package level values of `cmd`) enters as
parameters (`Consts`, `Tools`, `Collab`) or, where marked, as a definition
modelled from the spec.
-/

namespace Pgglaskugel

/-! ## Basic data -/

/-- Byte strings, one natural number below 256 per byte. -/
abbrev Bytes := List Nat

/-- A Go `error` value, identified by its message. -/
structure GoError where
  msg : String
deriving DecidableEq, Repr

/-- An external command as built by `exec.Command(name, args...)`. -/
structure Cmd where
  path : String
  args : List String
deriving DecidableEq, Repr

/-- A file as the operating system presents it: the outcome of `os.Open`,
the outcome of `Stat`, the size `Stat` reports (an int64) and the bytes a
reader of the file receives. -/
structure FileNode where
  openErr : Option GoError
  statErr : Option GoError
  size : Int
  content : Bytes
deriving DecidableEq, Repr

/-- An object of the S3 store with its content type tag. -/
structure S3Object where
  data : Bytes
  contentType : String
deriving DecidableEq, Repr

/-- What the archive command acts on: the local file system (path to file)
and the object store (bucket name to key to object). -/
structure ArchiveWorld where
  files : List (String × FileNode)
  buckets : List (String × List (String × S3Object))
deriving DecidableEq, Repr

/-- Modelled from the spec: the type `Backup` of package `backup`, whose
source is not available. The spec's data model gives a backup an identifier,
a creation timestamp, a start-WAL position and a sanity flag; `StartWal` is
`none` when the position cannot be resolved. -/
structure Backup where
  Name : String
  Created : Nat
  StartWal : Option String
  Sane : Bool
deriving DecidableEq, Repr

/-- The type `wal.Wal` as far as `cleanup.go` uses it: a segment with its
`Name`. -/
structure Wal where
  Name : String
deriving DecidableEq, Repr

/-- What the cleanup command acts on: the backups as `getMyBackups` lists
them and the WAL segments as `getMyWals` lists them. -/
structure CleanupWorld where
  catalog : List Backup
  walArchive : List Wal
deriving DecidableEq, Repr

/-- Logging levels of logrus that the commands use. -/
inductive Level
  | debug
  | info
  | warn
  | error
  | fatal
deriving DecidableEq, Repr

/-- Calls to the outside made by the two commands, in program order. -/
inductive Event
  | log (level : Level) (text : String)
  | logBackups (level : Level) (text : String) (backups : List Backup)
  | osOpen (path : String)
  | fileStat (path : String)
  | osStat (path : String)
  | stdoutPipe (c : Cmd)
  | stderrPipe (c : Cmd)
  | watchOutput (c : Cmd)
  | start (c : Cmd)
  | wait (c : Cmd)
  | run (c : Cmd)
  | bucketExists (bucket : String)
  | makeBucket (bucket : String) (location : String)
  | putObject (bucket : String) (key : String) (data : Bytes) (contentType : String)
  | getMyBackups
  | separateBackupsByAge (retain : Nat)
  | answerConfirmation
  | deleteAll (discard : List Backup)
  | getStartWalLocation (b : Backup) (walDir : String)
  | getMyWals
  | deleteOldWal (oldWal : Wal)
  | printDone
deriving DecidableEq, Repr

/-- State threaded through a command: the world and the calls made so far. -/
structure St (W : Type) where
  world : W
  trace : List Event
deriving DecidableEq, Repr

/-- Result of a piece of Go code: it returns a value, or the process has
been terminated with an exit code. -/
inductive Res (W α : Type)
  | ok (a : α) (s : St W)
  | exit (code : Nat) (s : St W)
deriving DecidableEq, Repr

/-- The state a result ends in. -/
def Res.state {W α : Type} : Res W α → St W
  | Res.ok _ s => s
  | Res.exit _ s => s

/-- The value a result returns, if the process has not been terminated. -/
def Res.value {W α : Type} : Res W α → Option α
  | Res.ok a _ => some a
  | Res.exit _ _ => none

/-- The exit code of a terminated process. -/
def Res.exitCode {W α : Type} : Res W α → Option Nat
  | Res.ok _ _ => none
  | Res.exit c _ => some c

/-- Configuration values read through viper. `retain` is the value of
`viper.GetInt("retain")`, a Go `int`. -/
structure Config where
  archive_to : String
  archivedir : String
  s3_bucket_wal : String
  s3_location : String
  encrypt : Bool
  recipient : String
  retain : Int
  force_delete : Bool
deriving DecidableEq, Repr

/-- Package level values of this repository that `archive.go` uses and that
are declared elsewhere in the repository: the size bounds of package `wal`
and the paths of the external tools. They are parameters of the model. -/
structure Consts where
  MinArchiveSize : Int
  MaxWalSize : Int
  cmdZstd : String
  cmdGpg : String
deriving DecidableEq, Repr

/-- The external tools zstd and gpg as byte transformers, and the failures
the outside can answer a call with. Each failure oracle gives the error
(if any) of the call on the given command, bucket or key. -/
structure Tools where
  compress : Bytes → Bytes
  encrypt : String → Bytes → Bytes
  stdoutPipeErr : Cmd → Option GoError
  stderrPipeErr : Cmd → Option GoError
  startErr : Cmd → Option GoError
  waitErr : Cmd → Option GoError
  runErr : Cmd → Option GoError
  bucketExistsErr : String → Option GoError
  makeBucketErr : String → Option GoError
  putObjectErr : String → String → Option GoError

/-! ## Sequential programs over the state -/

/-- A piece of Go code: from the state before to the result after. -/
def Prog (W α : Type) : Type := St W → Res W α

/-- Run a program from a state. -/
def Prog.run {W α : Type} (m : Prog W α) (s : St W) : Res W α := m s

/-- Sequencing: a terminated process runs nothing further. -/
def Prog.bind {W α β : Type} (m : Prog W α) (f : α → Prog W β) : Prog W β :=
  fun s =>
    match m s with
    | Res.ok a s1 => f a s1
    | Res.exit c s1 => Res.exit c s1

instance {W : Type} : Monad (Prog W) where
  pure a := fun s => Res.ok a s
  bind := Prog.bind

/-- Record a call to the outside. -/
def emit {W : Type} (e : Event) : Prog W Unit :=
  fun s => Res.ok () { s with trace := s.trace ++ [e] }

/-- Read the world. -/
def getWorld {W : Type} : Prog W W :=
  fun s => Res.ok s.world s

/-- Replace the world (the effect of a call that writes). -/
def setWorld {W : Type} (w : W) : Prog W Unit :=
  fun s => Res.ok () { s with world := w }

/-- Logging below level fatal: the call returns. -/
def logAt {W : Type} (level : Level) (text : String) : Prog W Unit :=
  emit (Event.log level text)

/-- The call `log.Fatal` of logrus: log at level fatal, then `os.Exit(1)`. -/
def logFatal {W α : Type} (text : String) : Prog W α :=
  fun s => Res.exit 1 { s with trace := s.trace ++ [Event.log Level.fatal text] }

/-- The statement `if err != nil { log.Fatal(text, err) }`. -/
def fatalIf {W : Type} (err : Option GoError) (text : String) : Prog W Unit :=
  match err with
  | none => pure ()
  | some e => logFatal (text ++ e.msg)

/-- The statement `if err != nil { log.X(text, err) }` for a level below
fatal. -/
def logIf {W : Type} (level : Level) (err : Option GoError) (text : String) : Prog W Unit :=
  match err with
  | none => pure ()
  | some e => logAt level (text ++ e.msg)

/-- Modelled from the spec: `errorcheck.Check`, whose source is not
available. The spec describes the control flow it belongs to as "abort entire
process on first error" with a non-zero exit, so `Check(err)` returns when
`err` is nil and otherwise logs the error and ends the process like
`log.Fatal`. -/
def ecCheck {W : Type} (err : Option GoError) : Prog W Unit :=
  fatalIf err ""

/-! ## Helpers on the world -/

/-- Lookup in an association list, first match. -/
def lookup {β : Type} (k : String) : List (String × β) → Option β
  | [] => none
  | (k1, v) :: rest => if k1 = k then some v else lookup k rest

/-- Replace or add the entry of a key in an association list. -/
def upsert {β : Type} (k : String) (v : β) : List (String × β) → List (String × β)
  | [] => [(k, v)]
  | (k1, v1) :: rest => if k1 = k then (k, v) :: rest else (k1, v1) :: upsert k v rest

/-- Whether `os.Stat(path)` returns a nil error: the file is there and can
be stat'ed. -/
def osStatOk (w : ArchiveWorld) (path : String) : Bool :=
  match lookup path w.files with
  | some f => f.statErr.isNone
  | none => false

/-- The bytes a process reading `path` receives, if it can open the file. -/
def readFile (w : ArchiveWorld) (path : String) : Option Bytes :=
  match lookup path w.files with
  | some f => if f.openErr.isNone then some f.content else none
  | none => none

/-- The world after a process has written `data` to the file `path`. -/
def writeFile (w : ArchiveWorld) (path : String) (data : Bytes) : ArchiveWorld :=
  { w with files := upsert path ⟨none, none, data.length, data⟩ w.files }

/-- Whether the object store has the bucket. -/
def hasBucket (w : ArchiveWorld) (bucket : String) : Bool :=
  (lookup bucket w.buckets).isSome

/-- The world after `MakeBucket` succeeded. -/
def addBucket (w : ArchiveWorld) (bucket : String) : ArchiveWorld :=
  { w with buckets := upsert bucket [] w.buckets }

/-- The object stored under a key of a bucket. -/
def getObject (w : ArchiveWorld) (bucket key : String) : Option S3Object :=
  match lookup bucket w.buckets with
  | some objs => lookup key objs
  | none => none

/-- The world after `PutObject` succeeded: the key now holds the new object,
whatever it held before. -/
def putObject (w : ArchiveWorld) (bucket key : String) (o : S3Object) : ArchiveWorld :=
  match lookup bucket w.buckets with
  | some objs => { w with buckets := upsert bucket (upsert key o objs) w.buckets }
  | none => w

/-- The function `filepath.Base` of the Go library on a Unix path: the last
element of the path, trailing slashes removed; "." for the empty path and
"/" for a path of slashes only. -/
def filepathBase (path : String) : String :=
  if path = "" then "."
  else
    let stripped := (path.toList.reverse.dropWhile (fun c => c = '/')).reverse
    let last := (stripped.reverse.takeWhile (fun c => c ≠ '/')).reverse
    if last = [] then "/" else String.mk last

/-! ## archive.go -/

/-- The function `testWalSource`: open the file, stat it, compare its size
with the two bounds. Returns the error, `none` for nil. -/
def testWalSource (k : Consts) (walSource : String) :
    Prog ArchiveWorld (Option GoError) := do
  let w ← getWorld
  emit (Event.osOpen walSource)
  match lookup walSource w.files with
  | none => pure (some ⟨"open " ++ walSource ++ ": no such file or directory"⟩)
  | some f =>
    match f.openErr with
    | some e => pure (some e)
    | none =>
      emit (Event.fileStat walSource)
      match f.statErr with
      | some e => pure (some e)
      | none =>
        if f.size < k.MinArchiveSize then
          pure (some ⟨"Input file to small"⟩)
        else if f.size > k.MaxWalSize then
          pure (some ⟨"Input file to big"⟩)
        else
          pure none

/-- What running `zstd walSource -o walTarget` to its end does: on success
the target holds the compressed bytes of the source; the command fails when
the outside says so or when the source cannot be read, and then writes
nothing. -/
def zstdToFile (t : Tools) (w : ArchiveWorld) (c : Cmd) (walSource walTarget : String) :
    Option GoError × ArchiveWorld :=
  match t.runErr c, readFile w walSource with
  | some e, _ => (some e, w)
  | none, none => (some ⟨"exit status 1"⟩, w)
  | none, some src => (none, writeFile w walTarget (t.compress src))

/-- What `zstd --stdout walSource` writes to its standard output: the
compressed bytes of the source, nothing when the source cannot be read. -/
def zstdStdout (t : Tools) (w : ArchiveWorld) (walSource : String) : Bytes :=
  match readFile w walSource with
  | some src => t.compress src
  | none => []

/-- The function `archiveToFile`: refuse when the target file exists, else
run `zstd walSource -o walTarget`. The configuration value `encrypt` is not
read. -/
def archiveToFile (k : Consts) (t : Tools) (cfg : Config) (walSource walName : String) :
    Prog ArchiveWorld (Option GoError) := do
  let walTarget := cfg.archivedir ++ "/wal/" ++ walName ++ ".zst"
  logAt Level.debug ("archiveWithZstdCommand, walSource: " ++ walSource ++ ", walName: "
    ++ walName ++ ", walTarget: " ++ walTarget)
  -- Check if WAL file is already in archive
  emit (Event.osStat walTarget)
  let w ← getWorld
  if osStatOk w walTarget then
    pure (some ⟨"WAL file is already in archive: " ++ walTarget⟩)
  else
    let archiveCmd : Cmd := ⟨k.cmdZstd, [walSource, "-o", walTarget]⟩
    emit (Event.stderrPipe archiveCmd)
    ecCheck (t.stderrPipeErr archiveCmd)
    emit (Event.watchOutput archiveCmd)
    emit (Event.run archiveCmd)
    let err := (zstdToFile t w archiveCmd walSource walTarget).1
    setWorld (zstdToFile t w archiveCmd walSource walTarget).2
    pure err

/-- The command `zstd --stdout walSource` of `archiveToS3`. -/
def compressCmd (k : Consts) (walSource : String) : Cmd :=
  ⟨k.cmdZstd, ["--stdout", walSource]⟩

/-- The command `gpg --encrypt -o - --recipient recipient` of `archiveToS3`. -/
def gpgCmd (k : Consts) (cfg : Config) : Cmd :=
  ⟨k.cmdGpg, ["--encrypt", "-o", "-", "--recipient", cfg.recipient]⟩

/-- Lines 137 to 154 of `archiveToS3`: test if the bucket is there, create
it if not. `getS3Connection` (source not available) is taken to hand back
the client. -/
def s3Bucket (t : Tools) (cfg : Config) : Prog ArchiveWorld Unit := do
  let bucket := cfg.s3_bucket_wal
  let location := cfg.s3_location
  -- Test if bucket is there
  emit (Event.bucketExists bucket)
  fatalIf (t.bucketExistsErr bucket) ""
  let w ← getWorld
  if hasBucket w bucket then
    logAt Level.debug ("Bucket already exists, we are using it: " ++ bucket)
  else
    -- Try to create bucket
    emit (Event.makeBucket bucket location)
    fatalIf (t.makeBucketErr bucket) ""
    setWorld (addBucket w bucket)
    logAt Level.info ("Bucket " ++ bucket ++ " created.")

/-- Lines 156 to 167 of `archiveToS3`: build the compress command and attach
its pipes. Returns what its standard output will carry (`compressStdout`). -/
def s3Compress (k : Consts) (t : Tools) (walSource : String) : Prog ArchiveWorld Bytes := do
  -- This command is used to take the wal and compress it
  emit (Event.stdoutPipe (compressCmd k walSource))
  fatalIf (t.stdoutPipeErr (compressCmd k walSource)) "Can not attach pipe to backup process, "
  let w ← getWorld
  let compressStdout : Bytes := zstdStdout t w walSource
  -- Watch output on stderror
  emit (Event.stderrPipe (compressCmd k walSource))
  ecCheck (t.stderrPipeErr (compressCmd k walSource))
  emit (Event.watchOutput (compressCmd k walSource))
  pure compressStdout

/-- Lines 169 to 193 of `archiveToS3`: when `encrypt`, build the gpg command
reading from the compress command, attach its pipes and start it. Returns
`s3Input` and `contentType`. -/
def s3Encrypt (k : Consts) (t : Tools) (cfg : Config) (compressStdout : Bytes) :
    Prog ArchiveWorld (Bytes × String) := do
  if cfg.encrypt then
    logAt Level.debug "Encrypt data, encrypt: true"
    -- Set the encryption output as input for S3
    emit (Event.stdoutPipe (gpgCmd k cfg))
    fatalIf (t.stdoutPipeErr (gpgCmd k cfg)) "Can not attach pipe to gpg process, "
    -- Watch output on stderror
    emit (Event.stderrPipe (gpgCmd k cfg))
    ecCheck (t.stderrPipeErr (gpgCmd k cfg))
    emit (Event.watchOutput (gpgCmd k cfg))
    -- Start encryption
    emit (Event.start (gpgCmd k cfg))
    fatalIf (t.startErr (gpgCmd k cfg)) "gpg failed on startup, "
    logAt Level.debug "gpg started"
    pure (t.encrypt cfg.recipient compressStdout, "pgp")
  else
    pure (compressStdout, "pgWAL")

/-- Lines 195 to 207 of `archiveToS3`: start the compress command, then
write the data to S3. -/
def s3Put (k : Consts) (t : Tools) (cfg : Config) (walSource walName : String)
    (s3Input : Bytes) (contentType : String) : Prog ArchiveWorld Unit := do
  let bucket := cfg.s3_bucket_wal
  let walTarget := walName ++ ".zst"
  -- Start backup and compression
  emit (Event.start (compressCmd k walSource))
  fatalIf (t.startErr (compressCmd k walSource)) "zstd failed on startup, "
  logAt Level.debug "Compression started"
  -- Write data to S3
  emit (Event.putObject bucket walTarget s3Input contentType)
  fatalIf (t.putObjectErr bucket walTarget) ""
  let w ← getWorld
  setWorld (putObject w bucket walTarget ⟨s3Input, contentType⟩)
  logAt Level.info ("Written bytes to " ++ walTarget ++ " in bucket " ++ bucket ++ ".")

/-- Lines 209 to 225 of `archiveToS3`: wait for the compress command, then
(when `encrypt`) for gpg. Returns `err`, which is nil when this is reached. -/
def s3Wait (k : Consts) (t : Tools) (cfg : Config) (walSource : String) :
    Prog ArchiveWorld (Option GoError) := do
  -- If there is still data in the output pipe it can be lost!
  emit (Event.wait (compressCmd k walSource))
  fatalIf (t.waitErr (compressCmd k walSource)) "compression failed after startup, "
  logAt Level.debug "Compression done"
  if cfg.encrypt then
    emit (Event.wait (gpgCmd k cfg))
    fatalIf (t.waitErr (gpgCmd k cfg)) "gpg failed after startup, "
    logAt Level.debug "Encryption done"
    pure none
  else
    pure none

/-- The function `archiveToS3`: make sure the bucket is there, set up zstd
and (when `encrypt`) gpg reading from it, start gpg, start zstd, put the
object, wait for zstd, wait for gpg. Every failure ends the process. There
is no test whether the object is already in the bucket. -/
def archiveToS3 (k : Consts) (t : Tools) (cfg : Config) (walSource walName : String) :
    Prog ArchiveWorld (Option GoError) := do
  s3Bucket t cfg
  let compressStdout ← s3Compress k t walSource
  let input ← s3Encrypt k t cfg compressStdout
  s3Put k t cfg walSource walName input.1 input.2
  s3Wait k t cfg walSource

/-- The function `archiveWal`: dispatch on the configured method. -/
def archiveWal (k : Consts) (t : Tools) (cfg : Config) (walSource walName : String) :
    Prog ArchiveWorld (Option GoError) :=
  if cfg.archive_to = "file" then archiveToFile k t cfg walSource walName
  else if cfg.archive_to = "s3" then archiveToS3 k t cfg walSource walName
  else logFatal (cfg.archive_to ++ " no valid value for archiveTo")

/-- One pass through the body of the loop of the archive command (lines 52
to 59 of `archive.go`). -/
def archiveStep (k : Consts) (t : Tools) (cfg : Config) (walSource : String) :
    Prog ArchiveWorld Unit := do
  let err ← testWalSource k walSource
  ecCheck err
  let walName := filepathBase walSource
  let err ← archiveWal k t cfg walSource walName
  fatalIf err "archive failed "

/-- The call `os.Exit(code)`. -/
def osExit {W α : Type} (code : Nat) : Prog W α :=
  fun s => Res.exit code s

/-- The conversion `uint(n)` of a Go `int` on a 64-bit platform. -/
def toUint (n : Int) : Nat :=
  (n % 18446744073709551616).toNat

/-- Order of WAL names: Go compares strings byte by byte, which on these
names is the lexicographic order of their characters. -/
def walNameLt (a b : String) : Prop :=
  a.toList < b.toList

instance (a b : String) : Decidable (walNameLt a b) :=
  inferInstanceAs (Decidable (a.toList < b.toList))

/-- The functions of packages `backup`, `wal`, `util` and `errorcheck` that
`cleanup.go` calls and whose source is not available, as parameters of the
model. `DeleteAll discard catalog` gives the count, the error and the catalog
left; `DeleteOldWal walArchive oldWal` gives the count and the segments left;
`AnswerConfirmation` is the answer and the error of the confirmation prompt;
`CheckErrorFatal` says whether `errorcheck.CheckError` ends the process on a
non-nil error (like `log.Fatal`) or only logs it. -/
structure Collab where
  SeparateBackupsByAge : List Backup → Nat → List Backup × List Backup × Option GoError
  IsSane : List Backup → Bool
  Sane : List Backup → List Backup
  Insane : List Backup → List Backup
  DeleteAll : List Backup → List Backup → (Int × Option GoError) × List Backup
  OldestBackup : List Backup → Backup
  GetStartWalLocation : Backup → String → String × Option GoError
  DeleteOldWal : List Wal → Wal → Int × List Wal
  AnswerConfirmation : Bool × Option GoError
  CheckErrorFatal : Bool

/-- The call `errorcheck.CheckError(err)`: logs a non-nil error, and ends
the process or not as the parameter says. -/
def ecCheckError {W : Type} (c : Collab) (err : Option GoError) : Prog W Unit :=
  if c.CheckErrorFatal then fatalIf err "" else logIf Level.error err ""

/-- Lines 50 to 64 of `cleanup.go`: separate by age, then keep only the sane
backups of the keep set when not all of them are sane. Returns `keep` and
`discard` as the rest of the run uses them. -/
def classify (c : Collab) (backups : List Backup) (retain : Nat) :
    Prog CleanupWorld (List Backup × List Backup) := do
  emit (Event.separateBackupsByAge retain)
  let keep := (c.SeparateBackupsByAge backups retain).1
  let discard := (c.SeparateBackupsByAge backups retain).2.1
  let err := (c.SeparateBackupsByAge backups retain).2.2
  logIf Level.error err ""
  -- Are all backups we want to keep sane?
  if c.IsSane keep != true then
    logAt Level.warn
      "Not all backups to keep are sane, will only count sane backups for retainsion policy"
    emit (Event.logBackups Level.warn
      "The following backups will not count for retainsion policy: " (c.Insane keep))
    -- Keep only the sane backups in keep
    pure (c.Sane keep, discard)
  else
    pure (keep, discard)

/-- Lines 66 to 84 of `cleanup.go`: report what is kept and what is
deleted; the run ends with exit code 0 when nothing is to be deleted. -/
def report (retain : Nat) (keep discard : List Backup) : Prog CleanupWorld Unit := do
  -- Check if we have less backups than wen want to keep
  if keep.length < retain then
    logAt Level.warn "Not enough backups for retention policy!"
  else
    pure ()
  -- Do we have backups to keept?
  if keep.length ≥ 1 then
    emit (Event.logBackups Level.info "Keep the following backups:" keep)
  else
    logAt Level.info "No backups will be left!"
  -- Show backups to delete, or exit if none should
  if discard.length ≥ 1 then
    emit (Event.logBackups Level.info "DELETE the following backups: " discard)
  else
    logAt Level.info "No backups will be removed!"
    osExit 0

/-- Lines 86 to 96 of `cleanup.go`: the user must confirm deletion or set
force-delete. Returns when deletion is confirmed. -/
def confirm (c : Collab) (cfg : Config) : Prog CleanupWorld Unit := do
  let confirmDelete := cfg.force_delete
  let confirmDelete ←
    if confirmDelete != true then do
      emit Event.answerConfirmation
      let answer := c.AnswerConfirmation.1
      let err := c.AnswerConfirmation.2
      ecCheckError c err
      pure answer
    else
      pure confirmDelete
  if confirmDelete != true then
    logAt Level.warn "Deletion was not confirmed, ending now."
    osExit 1
  else
    pure ()

/-- Lines 98 to 122 of `cleanup.go`: delete the discard set, read the
catalog again, resolve the start WAL of its oldest backup and delete the
WAL files older than it. -/
def deleteBackupsAndWal (c : Collab) (cfg : Config) (discard : List Backup) :
    Prog CleanupWorld Unit := do
  emit (Event.deleteAll discard)
  let w ← getWorld
  let count := (c.DeleteAll discard w.catalog).1.1
  let err := (c.DeleteAll discard w.catalog).1.2
  setWorld { w with catalog := (c.DeleteAll discard w.catalog).2 }
  logIf Level.warn err "DeleteAll()"
  logAt Level.info (toString count ++ " backups were removed.")
  emit Event.getMyBackups
  let w ← getWorld
  let backups := w.catalog
  emit (Event.logBackups Level.info "Backups left: " backups)
  let oldestBackup := c.OldestBackup backups
  emit (Event.getStartWalLocation oldestBackup (cfg.archivedir ++ "/wal"))
  let oldestNeededWal := (c.GetStartWalLocation oldestBackup (cfg.archivedir ++ "/wal")).1
  let err := (c.GetStartWalLocation oldestBackup (cfg.archivedir ++ "/wal")).2
  ecCheck err
  logAt Level.debug ("oldestNeededWal: " ++ oldestNeededWal)
  -- Create object to represent oldest needet WAL file
  let oldWal : Wal := ⟨oldestNeededWal⟩
  -- Get all WAL files
  emit Event.getMyWals
  let walArchive := w.walArchive
  -- Delete all WAL files that are older than oldestNeededWal
  emit (Event.deleteOldWal oldWal)
  let count := (c.DeleteOldWal walArchive oldWal).1
  setWorld { w with walArchive := (c.DeleteOldWal walArchive oldWal).2 }
  logAt Level.info ("Deleted " ++ toString count ++ " WAL files:")
  emit Event.printDone

/-- The `Run` function of `cleanupCmd`. -/
def cleanupRun (c : Collab) (cfg : Config) : Prog CleanupWorld Unit := do
  emit Event.getMyBackups
  let w ← getWorld
  let backups := w.catalog
  let retain := toUint cfg.retain
  if retain ≤ 0 then
    logFatal ("retain has to be 1 or higher! retain is: " ++ toString retain)
  else
    let sets ← classify c backups retain
    report retain sets.1 sets.2
    confirm c cfg
    deleteBackupsAndWal c cfg sets.2

/-! ## The collaborators as the spec describes them -/

/-- Order by age, oldest first. -/
def sortByAge (backups : List Backup) : List Backup :=
  backups.insertionSort (fun a b => a.Created ≤ b.Created)

/-- Modelled from the spec: `SeparateBackupsByAge`, whose source is not
available. The spec: "order backups by age (oldest first); the retain most
recent backups are the keep-candidate set, everything else is discard", with
an error for `retain == 0`. -/
def specSeparateBackupsByAge (backups : List Backup) (retain : Nat) :
    List Backup × List Backup × Option GoError :=
  let sorted := sortByAge backups
  let older := sorted.length - retain
  (sorted.drop older, sorted.take older,
    if retain = 0 then some ⟨"retain == 0"⟩ else none)

/-- Modelled from the spec: `DeleteAll`, whose source is not available. The
spec: "deletes every backup in the discard set; deletion failures are
collected and logged but do not roll back backups already deleted". `fails`
says which deletions fail. -/
def specDeleteAll (fails : Backup → Bool) (discard catalog : List Backup) :
    (Int × Option GoError) × List Backup :=
  let deleted := discard.filter (fun b => !fails b)
  (((deleted.length : Int),
      if discard.any fails then some ⟨"not all backups could be deleted"⟩ else none),
    catalog.filter (fun b => !deleted.contains b))

/-- Modelled from the spec: `OldestBackup`, whose source is not available.
The spec: "finds the oldest remaining backup"; the zero value for an empty
set. -/
def specOldestBackup (backups : List Backup) : Backup :=
  match sortByAge backups with
  | b :: _ => b
  | [] => ⟨"", 0, none, false⟩

/-- Modelled from the spec: `GetStartWalLocation`, whose source is not
available. The spec: "resolves its start-WAL position"; an error when it
cannot. -/
def specGetStartWalLocation (b : Backup) (_walDir : String) : String × Option GoError :=
  match b.StartWal with
  | some name => (name, none)
  | none => ("", some ⟨"can not find start WAL of backup " ++ b.Name⟩)

/-- Modelled from the spec: `DeleteOldWal`, whose source is not available.
The spec: "deletes every WAL segment strictly older than the horizon (by name
ordering)"; segments at or after it are left. -/
def specDeleteOldWal (walArchive : List Wal) (oldWal : Wal) : Int × List Wal :=
  let old := walArchive.filter (fun s => decide (walNameLt s.Name oldWal.Name))
  ((old.length : Int), walArchive.filter (fun s => !decide (walNameLt s.Name oldWal.Name)))

/-- Modelled from the spec: the collaborators of `cleanup.go` whose source is
not available, with the sanity predicates read off the sanity flag ("insane
backups are excluded from the keep count"). -/
def specCollab (answer : Bool × Option GoError) (checkErrorFatal : Bool)
    (fails : Backup → Bool) : Collab where
  SeparateBackupsByAge := specSeparateBackupsByAge
  IsSane := fun bs => bs.all (fun b => b.Sane)
  Sane := fun bs => bs.filter (fun b => b.Sane)
  Insane := fun bs => bs.filter (fun b => !b.Sane)
  DeleteAll := specDeleteAll fails
  OldestBackup := specOldestBackup
  GetStartWalLocation := specGetStartWalLocation
  DeleteOldWal := specDeleteOldWal
  AnswerConfirmation := answer
  CheckErrorFatal := checkErrorFatal

/-! ## Observations on runs -/

/-- The events a run has appended to the trace of the state it started in. -/
def Res.newEvents {W α : Type} (r : Res W α) (s : St W) : List Event :=
  r.state.trace.drop s.trace.length

/-- Continue with `f` after a result that returned. -/
def Res.andThen {W α β : Type} (r : Res W α) (f : α → St W → Res W β) : Res W β :=
  match r with
  | Res.ok a s => f a s
  | Res.exit c s => Res.exit c s

/-- The message of an error, empty for nil. -/
def errMsg (err : Option GoError) : String :=
  match err with
  | some e => e.msg
  | none => ""

/-- What happens to a stage of the S3 pipeline or to its sink. -/
inductive StageOp
  | start (c : Cmd)
  | put
  | wait (c : Cmd)
deriving DecidableEq, Repr

/-- The stage operations among the events of a trace, in order. -/
def stageOps : List Event → List StageOp
  | [] => []
  | Event.start c :: rest => StageOp.start c :: stageOps rest
  | Event.putObject _ _ _ _ :: rest => StageOp.put :: stageOps rest
  | Event.wait c :: rest => StageOp.wait c :: stageOps rest
  | _ :: rest => stageOps rest

/-- The commands started, in the order of their `Start` calls. -/
def startedCmds : List StageOp → List Cmd
  | [] => []
  | StageOp.start c :: rest => c :: startedCmds rest
  | _ :: rest => startedCmds rest

/-- The commands awaited, in the order of their `Wait` calls. -/
def awaitedCmds : List StageOp → List Cmd
  | [] => []
  | StageOp.wait c :: rest => c :: awaitedCmds rest
  | _ :: rest => awaitedCmds rest

/-- The stage operations of a complete run of `archiveToS3`. -/
def s3Ops (k : Consts) (cfg : Config) (walSource : String) : List StageOp :=
  (if cfg.encrypt then [StageOp.start (gpgCmd k cfg)] else [])
    ++ ([StageOp.start (compressCmd k walSource), StageOp.put]
    ++ ([StageOp.wait (compressCmd k walSource)]
    ++ (if cfg.encrypt then [StageOp.wait (gpgCmd k cfg)] else [])))

/-- Whether an event is a log line. -/
def Event.isLog : Event → Bool
  | Event.log _ _ => true
  | Event.logBackups _ _ _ => true
  | _ => false

/-- Whether an event is a call that deletes backups or WAL segments. -/
def Event.deletes : Event → Bool
  | Event.deleteAll _ => true
  | Event.deleteOldWal _ => true
  | _ => false

/-- The program appends stage operations `ops` when it returns, an initial
segment of `ops` when it ends the process, and then with exit code 1. -/
def Runs {α : Type} (m : Prog ArchiveWorld α) (ops : List StageOp) : Prop :=
  ∀ s, ∃ new, (m.run s).state.trace = s.trace ++ new ∧
    (((m.run s).exitCode = none ∧ stageOps new = ops) ∨
     ((m.run s).exitCode = some 1 ∧ stageOps new <+: ops))

/-- The program only appends to the trace, and every event it appends
satisfies `P`. -/
def Emits {W α : Type} (P : Event → Prop) (m : Prog W α) : Prop :=
  ∀ s, ∃ new, (m.run s).state.trace = s.trace ++ new ∧ ∀ e ∈ new, P e

/-- Every way the program ends the process has exit code 1. -/
def ExitsOne {W α : Type} (m : Prog W α) : Prop :=
  ∀ s c s1, m.run s = Res.exit c s1 → c = 1

/-- Tools without failures; compression puts a 0 in front, encryption a 1. -/
def exTools : Tools where
  compress := fun b => 0 :: b
  encrypt := fun _ b => 1 :: b
  stdoutPipeErr := fun _ => none
  stderrPipeErr := fun _ => none
  startErr := fun _ => none
  waitErr := fun _ => none
  runErr := fun _ => none
  bucketExistsErr := fun _ => none
  makeBucketErr := fun _ => none
  putObjectErr := fun _ _ => none

/-- Small bounds: a WAL file has 2 to 4 bytes. -/
def exConsts : Consts := ⟨2, 4, "zstd", "gpg"⟩

/-- A database directory with a WAL file of 3 bytes and one of 1 byte. The
file archive and the bucket `wal` already hold a copy of segment `W1`. -/
def exWorld : ArchiveWorld where
  files := [("/pg/W1", ⟨none, none, 3, [1, 2, 3]⟩), ("/pg/W0", ⟨none, none, 1, [7]⟩),
    ("/pg/W2", ⟨none, none, 3, [4, 5, 6]⟩),
    ("/arch/wal/W1.zst", ⟨none, none, 2, [9, 9]⟩)]
  buckets := [("wal", [("W1.zst", ⟨[9, 9], "pgWAL"⟩)])]

/-- The same directory with an empty archive. -/
def exWorldEmpty : ArchiveWorld where
  files := [("/pg/W1", ⟨none, none, 3, [1, 2, 3]⟩), ("/pg/W0", ⟨none, none, 1, [7]⟩),
    ("/pg/W2", ⟨none, none, 3, [4, 5, 6]⟩)]
  buckets := [("wal", [])]

/-- Configuration with the archive method and the encrypt switch given. -/
def exConfig (archiveTo : String) (encrypt : Bool) : Config :=
  ⟨archiveTo, "/arch", "wal", "eu", encrypt, "bob", 2, true⟩

/-- Configuration of a cleanup run. -/
def exCleanup (retain : Int) (force : Bool) : Config :=
  ⟨"file", "/arch", "wal", "eu", false, "bob", retain, force⟩

/-- The scenario of the spec: three backups, six WAL segments. -/
def exCatalog : CleanupWorld where
  catalog := [⟨"B1", 1, some "W1", true⟩, ⟨"B2", 2, some "W3", true⟩,
    ⟨"B3", 3, some "W5", true⟩]
  walArchive := [⟨"W1"⟩, ⟨"W2"⟩, ⟨"W3"⟩, ⟨"W4"⟩, ⟨"W5"⟩, ⟨"W6"⟩]

/-- Two backups, the newer one not sane. -/
def exInsane : List Backup :=
  [⟨"B1", 1, some "W1", true⟩, ⟨"B2", 2, some "W3", false⟩]

/-- The collaborators of the spec with an answer to the prompt, no failing
deletion, and `CheckError` that only logs. -/
def exCollab (answer : Bool) : Collab :=
  specCollab (answer, none) false (fun _ => false)

/-! ## Running programs: unfolding lemmas -/

section Unfold

variable {W α β : Type}

@[simp] theorem andThen_ok (a : α) (s : St W) (f : α → St W → Res W β) :
    (Res.ok a s).andThen f = f a s := rfl

@[simp] theorem andThen_exit (c : Nat) (s : St W) (f : α → St W → Res W β) :
    (Res.exit c s : Res W α).andThen f = Res.exit c s := rfl

@[simp] theorem andThen_ite (p : Prop) [Decidable p] (a b : Res W α)
    (f : α → St W → Res W β) :
    (if p then a else b).andThen f = if p then a.andThen f else b.andThen f := by
  split <;> rfl

@[simp] theorem run_pure (a : α) (s : St W) : (pure a : Prog W α).run s = Res.ok a s := rfl

@[simp] theorem run_bind (m : Prog W α) (f : α → Prog W β) (s : St W) :
    (m >>= f).run s = (m.run s).andThen (fun a s1 => (f a).run s1) := by
  show (Prog.bind m f) s = _
  unfold Prog.bind Prog.run Res.andThen
  cases m s <;> rfl

@[simp] theorem run_emit (e : Event) (s : St W) :
    (emit e : Prog W Unit).run s = Res.ok () ⟨s.world, s.trace ++ [e]⟩ := rfl

@[simp] theorem run_getWorld (s : St W) : (getWorld : Prog W W).run s = Res.ok s.world s := rfl

@[simp] theorem run_setWorld (w : W) (s : St W) :
    (setWorld w).run s = Res.ok () ⟨w, s.trace⟩ := rfl

@[simp] theorem run_logAt (l : Level) (text : String) (s : St W) :
    (logAt l text : Prog W Unit).run s = Res.ok () ⟨s.world, s.trace ++ [Event.log l text]⟩ :=
  rfl

@[simp] theorem run_logFatal (text : String) (s : St W) :
    (logFatal text : Prog W α).run s
      = Res.exit 1 ⟨s.world, s.trace ++ [Event.log Level.fatal text]⟩ := rfl

@[simp] theorem run_osExit (code : Nat) (s : St W) :
    (osExit code : Prog W α).run s = Res.exit code s := rfl

@[simp] theorem run_ite (p : Prop) [Decidable p] (a b : Prog W α) (s : St W) :
    (if p then a else b).run s = if p then a.run s else b.run s := by
  split <;> rfl

@[simp] theorem run_fatalIf (err : Option GoError) (text : String) (s : St W) :
    (fatalIf err text : Prog W Unit).run s =
      if err = none then Res.ok () s
      else Res.exit 1 ⟨s.world, s.trace ++ [Event.log Level.fatal (text ++ errMsg err)]⟩ := by
  cases err <;> rfl

@[simp] theorem run_ecCheck (err : Option GoError) (s : St W) :
    (ecCheck err : Prog W Unit).run s =
      if err = none then Res.ok () s
      else Res.exit 1 ⟨s.world, s.trace ++ [Event.log Level.fatal ("" ++ errMsg err)]⟩ := by
  cases err <;> rfl

@[simp] theorem run_logIf (l : Level) (err : Option GoError) (text : String) (s : St W) :
    (logIf l err text : Prog W Unit).run s =
      if err = none then Res.ok () s
      else Res.ok () ⟨s.world, s.trace ++ [Event.log l (text ++ errMsg err)]⟩ := by
  cases err <;> rfl

end Unfold

/-! ## C1: the size check of `testWalSource` -/

/-- Claim C1: for a WAL file that can be opened and stat'ed, with size s, and
bounds with MinArchiveSize <= MaxWalSize, testWalSource returns nil iff
MinArchiveSize <= s <= MaxWalSize, the "too small" error iff
s < MinArchiveSize and the "too big" error iff s > MaxWalSize. -/
theorem testWalSource_size_bounds (k : Consts) (s : St ArchiveWorld) (walSource : String)
    (f : FileNode) (hfile : lookup walSource s.world.files = some f)
    (hopen : f.openErr = none) (hstat : f.statErr = none)
    (hbounds : k.MinArchiveSize ≤ k.MaxWalSize) :
    (((testWalSource k walSource).run s).value = some none
        ↔ k.MinArchiveSize ≤ f.size ∧ f.size ≤ k.MaxWalSize) ∧
    (((testWalSource k walSource).run s).value = some (some ⟨"Input file to small"⟩)
        ↔ f.size < k.MinArchiveSize) ∧
    (((testWalSource k walSource).run s).value = some (some ⟨"Input file to big"⟩)
        ↔ f.size > k.MaxWalSize) := by
  simp only [testWalSource, run_bind, run_getWorld, run_emit, andThen_ok, hfile, hopen, hstat]
  by_cases h1 : f.size < k.MinArchiveSize
  · simp [h1, Res.value]
    omega
  · by_cases h2 : f.size > k.MaxWalSize
    · simp [h1, h2, Res.value]
    · simp [h1, h2, Res.value]
      omega

/-- Witness of C1: with bounds 2 and 4, the file of 3 bytes passes. -/
theorem testWalSource_size_bounds_witness :
    (((testWalSource exConsts "/pg/W1").run ⟨exWorld, []⟩).value = some none
        ↔ (2 : Int) ≤ 3 ∧ (3 : Int) ≤ 4) ∧
    (((testWalSource exConsts "/pg/W1").run ⟨exWorld, []⟩).value
        = some (some ⟨"Input file to small"⟩) ↔ (3 : Int) < 2) ∧
    (((testWalSource exConsts "/pg/W1").run ⟨exWorld, []⟩).value
        = some (some ⟨"Input file to big"⟩) ↔ (3 : Int) > 4) :=
  testWalSource_size_bounds exConsts ⟨exWorld, []⟩ "/pg/W1" ⟨none, none, 3, [1, 2, 3]⟩
    (by decide) rfl rfl (by decide)

/-! ## cleanup.go: what each block of the run does -/

theorem classify_run (c : Collab) (backups : List Backup) (retain : Nat)
    (s : St CleanupWorld) :
    ∃ new, (∀ e ∈ new, e.isLog = true) ∧
      (classify c backups retain).run s =
        Res.ok
          (if c.IsSane (c.SeparateBackupsByAge backups retain).1 = true
            then (c.SeparateBackupsByAge backups retain).1
            else c.Sane (c.SeparateBackupsByAge backups retain).1,
           (c.SeparateBackupsByAge backups retain).2.1)
          ⟨s.world, s.trace ++ ([Event.separateBackupsByAge retain] ++ new)⟩ := by
  simp only [classify, run_bind, run_emit, run_logIf, run_ite, run_logAt, run_pure,
    andThen_ok, andThen_ite, List.append_assoc]
  split_ifs <;> simp_all [Event.isLog]

theorem report_run (retain : Nat) (keep discard : List Backup) (s : St CleanupWorld) :
    ∃ new, (∀ e ∈ new, e.isLog = true) ∧
      (report retain keep discard).run s =
        if discard.length ≥ 1 then Res.ok () ⟨s.world, s.trace ++ new⟩
        else Res.exit 0 ⟨s.world, s.trace ++ new⟩ := by
  simp only [report, run_bind, run_emit, run_ite, run_logAt, run_pure, run_osExit,
    andThen_ok, andThen_ite, andThen_exit, List.append_assoc]
  split_ifs <;> simp_all [Event.isLog]

theorem confirm_run (c : Collab) (cfg : Config) (s : St CleanupWorld) :
    ∃ new, (∀ e ∈ new, e.deletes = false) ∧
      (cfg.force_delete = true → ∀ e ∈ new, e ≠ Event.answerConfirmation) ∧
      (confirm c cfg).run s =
        if cfg.force_delete = true ∨ (c.AnswerConfirmation.1 = true ∧
            ¬ (c.CheckErrorFatal = true ∧ c.AnswerConfirmation.2 ≠ none))
        then Res.ok () ⟨s.world, s.trace ++ new⟩
        else Res.exit 1 ⟨s.world, s.trace ++ new⟩ := by
  simp only [confirm, ecCheckError, run_bind, run_emit, run_ite, run_logAt, run_pure,
    run_osExit, run_fatalIf, run_logIf, andThen_ok, andThen_ite, andThen_exit,
    List.append_assoc]
  split_ifs <;>
  first
  | (simp_all [Event.deletes]; done)
  | (refine ⟨[], ?_, ?_, ?_⟩ <;> simp)

theorem delete_run (c : Collab) (cfg : Config) (discard : List Backup)
    (s : St CleanupWorld) :
    ∃ new1 new2, (∀ e ∈ new1, e.deletes = false ∧ e ≠ Event.answerConfirmation) ∧
      (∀ e ∈ new2, e.deletes = false ∧ e ≠ Event.answerConfirmation) ∧
      (deleteBackupsAndWal c cfg discard).run s =
        if (c.GetStartWalLocation (c.OldestBackup (c.DeleteAll discard s.world.catalog).2)
              (cfg.archivedir ++ "/wal")).2 = none
        then Res.ok ()
          ⟨⟨(c.DeleteAll discard s.world.catalog).2,
            (c.DeleteOldWal s.world.walArchive
              ⟨(c.GetStartWalLocation (c.OldestBackup (c.DeleteAll discard s.world.catalog).2)
                (cfg.archivedir ++ "/wal")).1⟩).2⟩,
           s.trace ++ ([Event.deleteAll discard] ++ (new1 ++
             ([Event.deleteOldWal
               ⟨(c.GetStartWalLocation
                  (c.OldestBackup (c.DeleteAll discard s.world.catalog).2)
                  (cfg.archivedir ++ "/wal")).1⟩] ++ new2)))⟩
        else Res.exit 1
          ⟨⟨(c.DeleteAll discard s.world.catalog).2, s.world.walArchive⟩,
           s.trace ++ ([Event.deleteAll discard] ++ new1)⟩ := by
  simp only [deleteBackupsAndWal, run_bind, run_emit, run_ite, run_logAt, run_pure,
    run_getWorld, run_setWorld, run_ecCheck, run_logIf, andThen_ok, andThen_ite,
    andThen_exit, List.append_assoc]
  by_cases h1 : (c.DeleteAll discard s.world.catalog).1.2 = none <;>
  by_cases h2 : (c.GetStartWalLocation (c.OldestBackup (c.DeleteAll discard s.world.catalog).2)
              (cfg.archivedir ++ "/wal")).2 = none <;>
  simp only [h1, h2, if_true, if_false]
  · exact ⟨[_, _, _, _, _, _], [_, _], by simp [Event.deletes], by simp [Event.deletes], rfl⟩
  · exact ⟨[_, _, _, _, _], [], by simp [Event.deletes], by simp, rfl⟩
  · exact ⟨[_, _, _, _, _, _, _], [_, _], by simp [Event.deletes], by simp [Event.deletes], rfl⟩
  · exact ⟨[_, _, _, _, _, _], [], by simp [Event.deletes], by simp, rfl⟩

theorem cleanupRun_run (c : Collab) (cfg : Config) (s : St CleanupWorld)
    (hr : ¬ toUint cfg.retain ≤ 0) :
    ∃ quiet, (∀ e ∈ quiet, e.deletes = false) ∧
      (cfg.force_delete = true → ∀ e ∈ quiet, e ≠ Event.answerConfirmation) ∧
      (cleanupRun c cfg).run s =
        if (c.SeparateBackupsByAge s.world.catalog (toUint cfg.retain)).2.1.length ≥ 1 then
          if cfg.force_delete = true ∨ (c.AnswerConfirmation.1 = true ∧
              ¬ (c.CheckErrorFatal = true ∧ c.AnswerConfirmation.2 ≠ none))
          then (deleteBackupsAndWal c cfg
              (c.SeparateBackupsByAge s.world.catalog (toUint cfg.retain)).2.1).run
            ⟨s.world, s.trace ++ ([Event.getMyBackups,
              Event.separateBackupsByAge (toUint cfg.retain)] ++ quiet)⟩
          else Res.exit 1 ⟨s.world, s.trace ++ ([Event.getMyBackups,
              Event.separateBackupsByAge (toUint cfg.retain)] ++ quiet)⟩
        else Res.exit 0 ⟨s.world, s.trace ++ ([Event.getMyBackups,
              Event.separateBackupsByAge (toUint cfg.retain)] ++ quiet)⟩ := by
  simp only [cleanupRun, run_bind, run_emit, run_getWorld, run_ite, hr, if_false, andThen_ok]
  obtain ⟨n1, hn1, e1⟩ := classify_run c s.world.catalog (toUint cfg.retain)
    ⟨s.world, s.trace ++ [Event.getMyBackups]⟩
  rw [e1]
  simp only [andThen_ok]
  obtain ⟨n2, hn2, e2⟩ := report_run (toUint cfg.retain)
    (if c.IsSane (c.SeparateBackupsByAge s.world.catalog (toUint cfg.retain)).1 = true
      then (c.SeparateBackupsByAge s.world.catalog (toUint cfg.retain)).1
      else c.Sane (c.SeparateBackupsByAge s.world.catalog (toUint cfg.retain)).1)
    (c.SeparateBackupsByAge s.world.catalog (toUint cfg.retain)).2.1
    ⟨s.world, s.trace ++ [Event.getMyBackups] ++
      ([Event.separateBackupsByAge (toUint cfg.retain)] ++ n1)⟩
  rw [e2]
  have hlog : ∀ e : Event, e.isLog = true → e.deletes = false ∧ e ≠ Event.answerConfirmation := by
    intro e he
    cases e <;> simp_all [Event.isLog, Event.deletes]
  by_cases hd : (c.SeparateBackupsByAge s.world.catalog (toUint cfg.retain)).2.1.length ≥ 1
  · simp only [hd, if_true, andThen_ok]
    obtain ⟨n3, hn3, hf3, e3⟩ := confirm_run c cfg
      ⟨s.world, s.trace ++ [Event.getMyBackups] ++
        ([Event.separateBackupsByAge (toUint cfg.retain)] ++ n1) ++ n2⟩
    rw [e3]
    refine ⟨n1 ++ (n2 ++ n3), ?_, ?_, ?_⟩
    · intro e he
      simp only [List.mem_append] at he
      rcases he with he | he | he
      · exact (hlog e (hn1 e he)).1
      · exact (hlog e (hn2 e he)).1
      · exact hn3 e he
    · intro hf e he
      simp only [List.mem_append] at he
      rcases he with he | he | he
      · exact (hlog e (hn1 e he)).2
      · exact (hlog e (hn2 e he)).2
      · exact hf3 hf e he
    · split_ifs <;> simp [List.append_assoc]
  · simp only [hd, if_false, andThen_exit]
    refine ⟨n1 ++ n2, ?_, ?_, ?_⟩
    · intro e he
      simp only [List.mem_append] at he
      rcases he with he | he
      · exact (hlog e (hn1 e he)).1
      · exact (hlog e (hn2 e he)).1
    · intro _ e he
      simp only [List.mem_append] at he
      rcases he with he | he
      · exact (hlog e (hn1 e he)).2
      · exact (hlog e (hn2 e he)).2
    · simp [List.append_assoc]

theorem newEvents_ok {W α : Type} (a : α) (w : W) (s : St W) (l : List Event) :
    (Res.ok a ⟨w, s.trace ++ l⟩ : Res W α).newEvents s = l := by
  simp [Res.newEvents, Res.state]

theorem newEvents_exit {W α : Type} (c : Nat) (w : W) (s : St W) (l : List Event) :
    (Res.exit c ⟨w, s.trace ++ l⟩ : Res W α).newEvents s = l := by
  simp [Res.newEvents, Res.state]

theorem toUint_neg (n : Int) (h1 : -9223372036854775808 ≤ n) (h2 : n < 0) :
    (toUint n : Int) = n + 18446744073709551616 := by
  unfold toUint
  omega

theorem newEvents_of_trace {W α : Type} (r : Res W α) (s : St W) (l : List Event)
    (h : r.state.trace = s.trace ++ l) : r.newEvents s = l := by
  simp [Res.newEvents, h]

theorem cleanupRun_rejected (c : Collab) (cfg : Config) (s : St CleanupWorld)
    (hr : toUint cfg.retain ≤ 0) :
    (cleanupRun c cfg).run s =
      Res.exit 1 ⟨s.world, s.trace ++ [Event.getMyBackups, Event.log Level.fatal
        ("retain has to be 1 or higher! retain is: " ++ toString (toUint cfg.retain))]⟩ := by
  simp only [cleanupRun, run_bind, run_emit, run_getWorld, run_ite, run_logFatal, andThen_ok,
    hr, if_true, List.append_assoc]
  rfl

/-- When the retain check passes, the run goes on with the call of
SeparateBackupsByAge; it only ever appends to the trace. -/
theorem cleanupRun_passes (c : Collab) (cfg : Config) (s : St CleanupWorld)
    (hr : ¬ toUint cfg.retain ≤ 0) :
    ∃ rest, ((cleanupRun c cfg).run s).state.trace = s.trace ++
      ([Event.getMyBackups, Event.separateBackupsByAge (toUint cfg.retain)] ++ rest) := by
  obtain ⟨quiet, -, -, e⟩ := cleanupRun_run c cfg s hr
  rw [e]
  split_ifs
  · obtain ⟨new1, new2, -, -, e2⟩ := delete_run c cfg
      (c.SeparateBackupsByAge s.world.catalog (toUint cfg.retain)).2.1
      ⟨s.world, s.trace ++ ([Event.getMyBackups,
        Event.separateBackupsByAge (toUint cfg.retain)] ++ quiet)⟩
    rw [e2]
    split_ifs
    · exact ⟨_, by simp only [Res.state, List.append_assoc]; rfl⟩
    · exact ⟨_, by simp only [Res.state, List.append_assoc]; rfl⟩
  · exact ⟨_, rfl⟩
  · exact ⟨_, rfl⟩

theorem cleanupRun_extends (c : Collab) (cfg : Config) (s : St CleanupWorld) :
    ((cleanupRun c cfg).run s).state.trace =
      s.trace ++ ((cleanupRun c cfg).run s).newEvents s := by
  by_cases hr : toUint cfg.retain ≤ 0
  · rw [cleanupRun_rejected c cfg s hr, newEvents_exit]
    rfl
  · obtain ⟨rest, h⟩ := cleanupRun_passes c cfg s hr
    rw [newEvents_of_trace _ s _ h, h]

/-! ## C3: retain = 0 -/

/-- Claim C3: for every backup catalog, a cleanup run with retain = 0 ends
with the fatal log line of the retain check (exit code 1) right after the
catalog was read: SeparateBackupsByAge is not called, and the catalog and the
WAL archive are as before, so no backup and no WAL segment is deleted. -/
theorem cleanup_retain_zero_is_fatal (c : Collab) (cfg : Config) (s : St CleanupWorld)
    (h : cfg.retain = 0) :
    (cleanupRun c cfg).run s =
      Res.exit 1 ⟨s.world, s.trace ++ [Event.getMyBackups,
        Event.log Level.fatal "retain has to be 1 or higher! retain is: 0"]⟩ := by
  have h0 : toUint 0 = 0 := by decide
  simp only [cleanupRun, run_bind, run_emit, run_getWorld, run_ite, run_logFatal, andThen_ok,
    h, h0, le_refl, if_true, List.append_assoc]
  rfl

/-- Witness of C3: the catalog of the spec scenario with retain = 0. -/
theorem cleanup_retain_zero_is_fatal_witness :
    (exCleanup 0 false).retain = 0 ∧
    (cleanupRun (exCollab true) (exCleanup 0 false)).run ⟨exCatalog, []⟩ =
      Res.exit 1 ⟨exCatalog, [Event.getMyBackups,
        Event.log Level.fatal "retain has to be 1 or higher! retain is: 0"]⟩ :=
  ⟨rfl, cleanup_retain_zero_is_fatal (exCollab true) (exCleanup 0 false) ⟨exCatalog, []⟩ rfl⟩

/-! ## C10: a negative retain -/

/-- Claim C10: for every configured integer n < 0 (an int64), uint(n) is
n + 2^64, the test retain <= 0 is false, and the run is not rejected: after
reading the catalog it goes on to call SeparateBackupsByAge with that count. -/
theorem cleanup_negative_retain_passes (c : Collab) (cfg : Config) (s : St CleanupWorld)
    (hlo : -9223372036854775808 ≤ cfg.retain) (hneg : cfg.retain < 0) :
    (toUint cfg.retain : Int) = cfg.retain + 18446744073709551616 ∧
    ¬ (toUint cfg.retain ≤ 0) ∧
    ∃ rest, ((cleanupRun c cfg).run s).state.trace = s.trace ++
      ([Event.getMyBackups, Event.separateBackupsByAge (toUint cfg.retain)] ++ rest) := by
  have h3 := toUint_neg cfg.retain hlo hneg
  have h4 : ¬ toUint cfg.retain ≤ 0 := by omega
  exact ⟨h3, h4, cleanupRun_passes c cfg s h4⟩

/-- Witness of C10: retain = -1 becomes 2^64 - 1. -/
theorem cleanup_negative_retain_passes_witness :
    (-9223372036854775808 ≤ (exCleanup (-1) true).retain ∧ (exCleanup (-1) true).retain < 0) ∧
    toUint (exCleanup (-1) true).retain = 18446744073709551615 ∧
    ∃ rest, ((cleanupRun (exCollab true) (exCleanup (-1) true)).run
        ⟨exCatalog, []⟩).state.trace =
      [] ++ ([Event.getMyBackups,
        Event.separateBackupsByAge (toUint (exCleanup (-1) true).retain)] ++ rest) :=
  ⟨⟨by decide, by decide⟩, by decide,
    (cleanup_negative_retain_passes (exCollab true) (exCleanup (-1) true) ⟨exCatalog, []⟩
      (by decide) (by decide)).2.2⟩

/-! ## C5: confirmation before deletion -/

/-- Without force-delete and without an affirmative answer, a run changes
nothing, deletes nothing and, once the discard set is not empty, ends with
exit code 1. -/
theorem cleanupRun_unconfirmed (c : Collab) (cfg : Config) (s : St CleanupWorld)
    (hforce : cfg.force_delete = false) (hans : c.AnswerConfirmation.1 ≠ true) :
    ((cleanupRun c cfg).run s).state.world = s.world ∧
    (∀ e ∈ ((cleanupRun c cfg).run s).newEvents s, e.deletes = false) ∧
    (¬ toUint cfg.retain ≤ 0 →
      (c.SeparateBackupsByAge s.world.catalog (toUint cfg.retain)).2.1.length ≥ 1 →
      ((cleanupRun c cfg).run s).exitCode = some 1) := by
  by_cases hr : toUint cfg.retain ≤ 0
  · rw [cleanupRun_rejected c cfg s hr, newEvents_exit]
    simp [Res.state, Event.deletes, hr]
  · obtain ⟨quiet, hq, -, e⟩ := cleanupRun_run c cfg s hr
    have hno : ¬ (cfg.force_delete = true ∨ (c.AnswerConfirmation.1 = true ∧
        ¬ (c.CheckErrorFatal = true ∧ c.AnswerConfirmation.2 ≠ none))) := by
      simp [hforce, hans]
    rw [e]
    simp only [hno, if_false]
    split_ifs with hd
    · rw [newEvents_exit]
      refine ⟨rfl, ?_, fun _ _ => rfl⟩
      intro e he
      simp only [List.mem_append, List.mem_cons, List.mem_singleton, List.not_mem_nil,
        or_false] at he
      rcases he with (he | he) | he
      · subst he; rfl
      · subst he; rfl
      · exact hq e he
    · rw [newEvents_exit]
      refine ⟨rfl, ?_, fun _ h => absurd h hd⟩
      intro e he
      simp only [List.mem_append, List.mem_cons, List.mem_singleton, List.not_mem_nil,
        or_false] at he
      rcases he with (he | he) | he
      · subst he; rfl
      · subst he; rfl
      · exact hq e he

/-- With force-delete set, the run never asks for confirmation. -/
theorem cleanupRun_forced (c : Collab) (cfg : Config) (s : St CleanupWorld)
    (hforce : cfg.force_delete = true) :
    Event.answerConfirmation ∉ ((cleanupRun c cfg).run s).newEvents s := by
  by_cases hr : toUint cfg.retain ≤ 0
  · rw [cleanupRun_rejected c cfg s hr, newEvents_exit]
    simp
  · obtain ⟨quiet, -, hq, e⟩ := cleanupRun_run c cfg s hr
    have hq2 : Event.answerConfirmation ∉ quiet := fun h => hq hforce _ h rfl
    rw [e]
    simp only [hforce, true_or, if_true]
    split_ifs with hd
    · obtain ⟨new1, new2, h1, h2, e2⟩ := delete_run c cfg
        (c.SeparateBackupsByAge s.world.catalog (toUint cfg.retain)).2.1
        ⟨s.world, s.trace ++ ([Event.getMyBackups,
          Event.separateBackupsByAge (toUint cfg.retain)] ++ quiet)⟩
      have h1a : Event.answerConfirmation ∉ new1 := fun h => (h1 _ h).2 rfl
      have h2a : Event.answerConfirmation ∉ new2 := fun h => (h2 _ h).2 rfl
      rw [e2]
      split_ifs
      · simp only [List.append_assoc]
        rw [newEvents_ok]
        simp [hq2, h1a, h2a]
      · simp only [List.append_assoc]
        rw [newEvents_exit]
        simp [hq2, h1a]
    · rw [newEvents_exit]
      simp [hq2]

/-- Claim C5: the events of a cleanup run are appended to the trace, and in
a run without force-delete a deleting call (DeleteAll, DeleteOldWal) is made
only if the confirmation answer is affirmative; when the retain check has passed, the discard set is not empty
and the answer is not affirmative, the run ends with exit code 1, the catalog
and the WAL archive are as before and no deleting call was made. With
force-delete set, no confirmation is asked. -/
theorem cleanup_needs_confirmation (c : Collab) (cfg : Config) (s : St CleanupWorld) :
    ((cleanupRun c cfg).run s).state.trace =
      s.trace ++ ((cleanupRun c cfg).run s).newEvents s ∧
    (cfg.force_delete = false →
      (∃ e ∈ ((cleanupRun c cfg).run s).newEvents s, e.deletes = true) →
      c.AnswerConfirmation.1 = true) ∧
    (cfg.force_delete = false → ¬ toUint cfg.retain ≤ 0 →
      (c.SeparateBackupsByAge s.world.catalog (toUint cfg.retain)).2.1.length ≥ 1 →
      c.AnswerConfirmation.1 ≠ true →
      ((cleanupRun c cfg).run s).exitCode = some 1 ∧
      ((cleanupRun c cfg).run s).state.world = s.world ∧
      ∀ e ∈ ((cleanupRun c cfg).run s).newEvents s, e.deletes = false) ∧
    (cfg.force_delete = true →
      Event.answerConfirmation ∉ ((cleanupRun c cfg).run s).newEvents s) := by
  refine ⟨cleanupRun_extends c cfg s, ?_, ?_, cleanupRun_forced c cfg s⟩
  · intro hforce ⟨e, he, hdel⟩
    by_contra hans
    have h := (cleanupRun_unconfirmed c cfg s hforce hans).2.1 e he
    rw [h] at hdel
    exact Bool.false_ne_true hdel
  · intro hforce hr hd hans
    have h := cleanupRun_unconfirmed c cfg s hforce hans
    exact ⟨h.2.2 hr hd, h.1, h.2.1⟩

/-- Witness of C5: the spec scenario with retain = 2, no force-delete and the
answer "no": exit code 1 and nothing deleted. -/
theorem cleanup_needs_confirmation_witness :
    ((exCleanup 2 false).force_delete = false ∧ ¬ toUint (exCleanup 2 false).retain ≤ 0 ∧
      ((exCollab false).SeparateBackupsByAge exCatalog.catalog
        (toUint (exCleanup 2 false).retain)).2.1.length ≥ 1 ∧
      (exCollab false).AnswerConfirmation.1 ≠ true) ∧
    ((cleanupRun (exCollab false) (exCleanup 2 false)).run ⟨exCatalog, []⟩).exitCode = some 1 ∧
    ((cleanupRun (exCollab false) (exCleanup 2 false)).run ⟨exCatalog, []⟩).state.world
      = exCatalog ∧
    ∀ e ∈ ((cleanupRun (exCollab false) (exCleanup 2 false)).run ⟨exCatalog, []⟩).newEvents
      ⟨exCatalog, []⟩, e.deletes = false :=
  ⟨⟨rfl, by decide, by decide, by decide⟩,
    (cleanup_needs_confirmation (exCollab false) (exCleanup 2 false) ⟨exCatalog, []⟩).2.2.1
      rfl (by decide) (by decide) (by decide)⟩

/-! ## C2: the WAL horizon -/

theorem specDeleteOldWal_keeps (walArchive : List Wal) (oldWal seg : Wal)
    (hmem : seg ∈ walArchive) (hge : ¬ walNameLt seg.Name oldWal.Name) :
    seg ∈ (specDeleteOldWal walArchive oldWal).2 := by
  simp [specDeleteOldWal, hmem, hge]

/-- Claim C2: given that DeleteOldWal removes only segments whose name is
strictly older than its argument, in every cleanup run (the events of which
are appended to the trace) (1) a call of DeleteOldWal has as argument the start-WAL position of the oldest backup of
the catalog as it is after DeleteAll deleted the discard set, which is the
catalog the run ends with, and (2) every WAL segment that is not strictly
older than the start-WAL position of the oldest backup of that catalog is
still in the WAL archive at the end of the run. -/
theorem cleanup_keeps_wal_from_horizon (c : Collab) (cfg : Config) (s : St CleanupWorld)
    (hDel : ∀ (walArchive : List Wal) (oldWal seg : Wal), seg ∈ walArchive →
      ¬ walNameLt seg.Name oldWal.Name → seg ∈ (c.DeleteOldWal walArchive oldWal).2) :
    ((cleanupRun c cfg).run s).state.trace =
      s.trace ++ ((cleanupRun c cfg).run s).newEvents s ∧
    (∀ oldWal, Event.deleteOldWal oldWal ∈ ((cleanupRun c cfg).run s).newEvents s →
      ((cleanupRun c cfg).run s).state.world.catalog =
        (c.DeleteAll (c.SeparateBackupsByAge s.world.catalog (toUint cfg.retain)).2.1
          s.world.catalog).2 ∧
      (c.GetStartWalLocation (c.OldestBackup ((cleanupRun c cfg).run s).state.world.catalog)
        (cfg.archivedir ++ "/wal")).2 = none ∧
      oldWal.Name =
        (c.GetStartWalLocation (c.OldestBackup ((cleanupRun c cfg).run s).state.world.catalog)
          (cfg.archivedir ++ "/wal")).1) ∧
    (∀ seg ∈ s.world.walArchive,
      ¬ walNameLt seg.Name
        (c.GetStartWalLocation (c.OldestBackup ((cleanupRun c cfg).run s).state.world.catalog)
          (cfg.archivedir ++ "/wal")).1 →
      seg ∈ ((cleanupRun c cfg).run s).state.world.walArchive) := by
  refine ⟨cleanupRun_extends c cfg s, ?_⟩
  by_cases hr : toUint cfg.retain ≤ 0
  · rw [cleanupRun_rejected c cfg s hr, newEvents_exit]
    refine ⟨?_, fun seg hseg _ => hseg⟩
    intro oldWal h
    simp at h
  · obtain ⟨quiet, hq, -, e⟩ := cleanupRun_run c cfg s hr
    have hq2 : ∀ oldWal, Event.deleteOldWal oldWal ∉ quiet := by
      intro oldWal h
      have := hq _ h
      simp [Event.deletes] at this
    rw [e]
    split_ifs with hd hc
    · obtain ⟨new1, new2, h1, h2, e2⟩ := delete_run c cfg
        (c.SeparateBackupsByAge s.world.catalog (toUint cfg.retain)).2.1
        ⟨s.world, s.trace ++ ([Event.getMyBackups,
          Event.separateBackupsByAge (toUint cfg.retain)] ++ quiet)⟩
      have h1a : ∀ oldWal, Event.deleteOldWal oldWal ∉ new1 := by
        intro oldWal h
        have := (h1 _ h).1
        simp [Event.deletes] at this
      have h2a : ∀ oldWal, Event.deleteOldWal oldWal ∉ new2 := by
        intro oldWal h
        have := (h2 _ h).1
        simp [Event.deletes] at this
      rw [e2]
      split_ifs with hloc
      · simp only [List.append_assoc]
        rw [newEvents_ok]
        refine ⟨?_, ?_⟩
        · intro oldWal h
          simp only [List.mem_append, List.mem_cons, List.mem_singleton, List.not_mem_nil,
            or_false, reduceCtorEq, false_or, hq2, h1a, h2a, Event.deleteOldWal.injEq] at h
          subst h
          exact ⟨rfl, hloc, rfl⟩
        · intro seg hseg hge
          exact hDel _ _ seg hseg hge
      · simp only [List.append_assoc]
        rw [newEvents_exit]
        refine ⟨?_, fun seg hseg _ => hseg⟩
        intro oldWal h
        simp [hq2, h1a] at h
    · rw [newEvents_exit]
      refine ⟨?_, fun seg hseg _ => hseg⟩
      intro oldWal h
      simp [hq2] at h
    · rw [newEvents_exit]
      refine ⟨?_, fun seg hseg _ => hseg⟩
      intro oldWal h
      simp [hq2] at h

/-- Witness of C2, the scenario of the spec: backups B1 (W1), B2 (W3),
B3 (W5), segments W1 to W6, retain = 2. DeleteOldWal is called with W3, the
run ends with backups B2 and B3 and segments W3, W4, W5, W6. -/
theorem cleanup_keeps_wal_from_horizon_witness :
    (∀ (walArchive : List Wal) (oldWal seg : Wal), seg ∈ walArchive →
      ¬ walNameLt seg.Name oldWal.Name →
      seg ∈ ((exCollab true).DeleteOldWal walArchive oldWal).2) ∧
    Event.deleteOldWal ⟨"W3"⟩ ∈
      ((cleanupRun (exCollab true) (exCleanup 2 true)).run ⟨exCatalog, []⟩).newEvents
        ⟨exCatalog, []⟩ ∧
    ((cleanupRun (exCollab true) (exCleanup 2 true)).run ⟨exCatalog, []⟩).state.world =
      ⟨[⟨"B2", 2, some "W3", true⟩, ⟨"B3", 3, some "W5", true⟩],
       [⟨"W3"⟩, ⟨"W4"⟩, ⟨"W5"⟩, ⟨"W6"⟩]⟩ ∧
    (∀ seg ∈ exCatalog.walArchive,
      ¬ walNameLt seg.Name
        ((exCollab true).GetStartWalLocation ((exCollab true).OldestBackup
          ((cleanupRun (exCollab true) (exCleanup 2 true)).run
            ⟨exCatalog, []⟩).state.world.catalog)
          ((exCleanup 2 true).archivedir ++ "/wal")).1 →
      seg ∈ ((cleanupRun (exCollab true) (exCleanup 2 true)).run
        ⟨exCatalog, []⟩).state.world.walArchive) :=
  ⟨specDeleteOldWal_keeps, by decide, by decide,
    (cleanup_keeps_wal_from_horizon (exCollab true) (exCleanup 2 true) ⟨exCatalog, []⟩
      specDeleteOldWal_keeps).2.2⟩

/-! ## C7: keep and discard -/

theorem classify_spec_value (answer : Bool × Option GoError) (cef : Bool)
    (fails : Backup → Bool) (backups : List Backup) (retain : Nat) (s : St CleanupWorld) :
    ((classify (specCollab answer cef fails) backups retain).run s).value =
      some ((specSeparateBackupsByAge backups retain).1.filter (fun b => b.Sane),
        (specSeparateBackupsByAge backups retain).2.1) := by
  obtain ⟨new, -, e⟩ := classify_run (specCollab answer cef fails) backups retain s
  rw [e]
  simp only [Res.value, specCollab, Option.some.injEq, Prod.mk.injEq, and_true]
  split_ifs with h
  · symm
    rw [List.filter_eq_self]
    intro b hb
    exact (List.all_eq_true.mp h) b hb
  · rfl

theorem specSeparate_perm (backups : List Backup) (retain : Nat) :
    ((specSeparateBackupsByAge backups retain).2.1 ++
      (specSeparateBackupsByAge backups retain).1).Perm backups := by
  simp only [specSeparateBackupsByAge, List.take_append_drop]
  exact List.perm_insertionSort _ _

theorem sortByAge_sorted (backups : List Backup) :
    (sortByAge backups).Pairwise (fun a b => a.Created ≤ b.Created) := by
  haveI : IsTotal Backup (fun a b => a.Created ≤ b.Created) :=
    ⟨fun a b => Nat.le_total a.Created b.Created⟩
  haveI : IsTrans Backup (fun a b => a.Created ≤ b.Created) :=
    ⟨fun _ _ _ h1 h2 => Nat.le_trans h1 h2⟩
  exact List.sorted_insertionSort (fun a b => a.Created ≤ b.Created) backups

theorem andThen_trace {W α β : Type} (P : Event → Prop) (r : Res W α)
    (f : α → St W → Res W β) (s0 : St W)
    (h1 : ∃ n1, r.state.trace = s0.trace ++ n1 ∧ ∀ e ∈ n1, P e)
    (h2 : ∀ a s1, r = Res.ok a s1 →
      ∃ n2, (f a s1).state.trace = s1.trace ++ n2 ∧ ∀ e ∈ n2, P e) :
    ∃ n, (r.andThen f).state.trace = s0.trace ++ n ∧ ∀ e ∈ n, P e := by
  obtain ⟨n1, t1, p1⟩ := h1
  cases r with
  | ok a s1 =>
    obtain ⟨n2, t2, p2⟩ := h2 a s1 rfl
    simp only [Res.state] at t1
    refine ⟨n1 ++ n2, by simp [andThen_ok, t2, t1], ?_⟩
    intro e he
    rcases List.mem_append.mp he with he | he
    · exact p1 e he
    · exact p2 e he
  | exit c s1 => exact ⟨n1, t1, p1⟩

theorem classify_emits_keep (c : Collab) (backups : List Backup) (retain : Nat)
    (K : List Backup) :
    Emits (fun e => ∀ ks, e = Event.logBackups Level.info "Keep the following backups:" ks →
      ks = K) (classify c backups retain) := by
  intro s
  simp only [classify, run_bind, run_emit, run_logIf, run_ite, run_logAt, run_pure,
    andThen_ok, andThen_ite, List.append_assoc]
  split_ifs <;> refine ⟨_, rfl, ?_⟩ <;> simp

theorem report_emits_keep (retain : Nat) (keep discard : List Backup) :
    Emits (fun e => ∀ ks, e = Event.logBackups Level.info "Keep the following backups:" ks →
      ks = keep) (report retain keep discard) := by
  intro s
  have hne : ("DELETE the following backups: " : String) ≠ "Keep the following backups:" := by
    decide
  simp only [report, run_bind, run_emit, run_ite, run_logAt, run_pure, run_osExit,
    andThen_ok, andThen_ite, andThen_exit, List.append_assoc]
  split_ifs <;> refine ⟨_, rfl, ?_⟩ <;> simp [hne]

theorem confirm_emits_keep (c : Collab) (cfg : Config) (K : List Backup) :
    Emits (fun e => ∀ ks, e = Event.logBackups Level.info "Keep the following backups:" ks →
      ks = K) (confirm c cfg) := by
  intro s
  simp only [confirm, ecCheckError, run_bind, run_emit, run_ite, run_logAt, run_pure,
    run_osExit, run_fatalIf, run_logIf, andThen_ok, andThen_ite, andThen_exit,
    List.append_assoc]
  split_ifs <;>
  first
  | (refine ⟨_, rfl, ?_⟩; simp)
  | (refine ⟨[], by simp [Res.state], ?_⟩; simp)

theorem delete_emits_keep (c : Collab) (cfg : Config) (discard K : List Backup) :
    Emits (fun e => ∀ ks, e = Event.logBackups Level.info "Keep the following backups:" ks →
      ks = K) (deleteBackupsAndWal c cfg discard) := by
  intro s
  have hne : ("Backups left: " : String) ≠ "Keep the following backups:" := by decide
  simp only [deleteBackupsAndWal, run_bind, run_emit, run_ite, run_logAt, run_pure,
    run_getWorld, run_setWorld, run_ecCheck, run_logIf, andThen_ok, andThen_ite,
    andThen_exit, List.append_assoc]
  split_ifs <;> refine ⟨_, rfl, ?_⟩ <;> simp [hne]

/-- The only report of kept backups in a cleanup run names the keep set
after the sanity filter. -/
theorem cleanupRun_reports_keep (c : Collab) (cfg : Config) (s : St CleanupWorld)
    (ks : List Backup)
    (h : Event.logBackups Level.info "Keep the following backups:" ks ∈
      ((cleanupRun c cfg).run s).newEvents s) :
    ks = (if c.IsSane (c.SeparateBackupsByAge s.world.catalog (toUint cfg.retain)).1 = true
      then (c.SeparateBackupsByAge s.world.catalog (toUint cfg.retain)).1
      else c.Sane (c.SeparateBackupsByAge s.world.catalog (toUint cfg.retain)).1) := by
  by_cases hr : toUint cfg.retain ≤ 0
  · rw [cleanupRun_rejected c cfg s hr, newEvents_exit] at h
    simp at h
  · have hall : ∃ n, ((cleanupRun c cfg).run s).state.trace = s.trace ++ n ∧
        ∀ e ∈ n, ∀ ks, e = Event.logBackups Level.info "Keep the following backups:" ks →
          ks = (if c.IsSane (c.SeparateBackupsByAge s.world.catalog (toUint cfg.retain)).1
              = true
            then (c.SeparateBackupsByAge s.world.catalog (toUint cfg.retain)).1
            else c.Sane (c.SeparateBackupsByAge s.world.catalog (toUint cfg.retain)).1) := by
      simp only [cleanupRun, run_bind, run_emit, run_getWorld, run_ite, hr, if_false,
        andThen_ok]
      refine andThen_trace _ _ _ s ?_ ?_
      · obtain ⟨n1, t1, p1⟩ := classify_emits_keep c s.world.catalog (toUint cfg.retain) _
          ⟨s.world, s.trace ++ [Event.getMyBackups]⟩
        refine ⟨[Event.getMyBackups] ++ n1, by rw [t1, List.append_assoc], ?_⟩
        intro e he
        rcases List.mem_append.mp he with he | he
        · intro ks hks
          simp only [List.mem_singleton] at he
          rw [he] at hks
          simp at hks
        · exact p1 e he
      · intro sets s1 hsets
        obtain ⟨new, -, e1⟩ := classify_run c s.world.catalog (toUint cfg.retain)
          ⟨s.world, s.trace ++ [Event.getMyBackups]⟩
        rw [e1] at hsets
        simp only [Res.ok.injEq] at hsets
        obtain ⟨hval, -⟩ := hsets
        subst hval
        refine andThen_trace _ _ _ s1 (report_emits_keep _ _ _ s1) ?_
        intro _ s2 _
        refine andThen_trace _ _ _ s2 (confirm_emits_keep c cfg _ s2) ?_
        intro _ s3 _
        exact delete_emits_keep c cfg _ _ s3
    obtain ⟨n, tn, pn⟩ := hall
    rw [newEvents_of_trace _ s n tn] at h
    exact pn _ h ks rfl

/-- The only DeleteAll call of a cleanup run has the discard set of
SeparateBackupsByAge as argument. -/
theorem cleanupRun_deletes_discard (c : Collab) (cfg : Config) (s : St CleanupWorld)
    (d : List Backup)
    (h : Event.deleteAll d ∈ ((cleanupRun c cfg).run s).newEvents s) :
    d = (c.SeparateBackupsByAge s.world.catalog (toUint cfg.retain)).2.1 := by
  by_cases hr : toUint cfg.retain ≤ 0
  · rw [cleanupRun_rejected c cfg s hr, newEvents_exit] at h
    simp at h
  · obtain ⟨quiet, hq, -, e⟩ := cleanupRun_run c cfg s hr
    have hq2 : Event.deleteAll d ∉ quiet := by
      intro hmem
      have := hq _ hmem
      simp [Event.deletes] at this
    rw [e] at h
    split_ifs at h with hd hc
    · obtain ⟨new1, new2, h1, h2, e2⟩ := delete_run c cfg
        (c.SeparateBackupsByAge s.world.catalog (toUint cfg.retain)).2.1
        ⟨s.world, s.trace ++ ([Event.getMyBackups,
          Event.separateBackupsByAge (toUint cfg.retain)] ++ quiet)⟩
      have h1a : Event.deleteAll d ∉ new1 := by
        intro hmem
        have := (h1 _ hmem).1
        simp [Event.deletes] at this
      have h2a : Event.deleteAll d ∉ new2 := by
        intro hmem
        have := (h2 _ hmem).1
        simp [Event.deletes] at this
      rw [e2] at h
      split_ifs at h with hloc
      · simp only [List.append_assoc] at h
        rw [newEvents_ok] at h
        simp only [List.mem_append, List.mem_cons, List.mem_singleton, List.not_mem_nil,
          or_false, reduceCtorEq, false_or, hq2, h1a, h2a, Event.deleteAll.injEq] at h
        exact h
      · simp only [List.append_assoc] at h
        rw [newEvents_exit] at h
        simp only [List.mem_append, List.mem_cons, List.mem_singleton, List.not_mem_nil,
          or_false, reduceCtorEq, false_or, hq2, h1a, Event.deleteAll.injEq] at h
        exact h
    · rw [newEvents_exit] at h
      simp [hq2] at h
    · rw [newEvents_exit] at h
      simp [hq2] at h

/-- Claim C7 as amended: for every backup set B and retain count r, the run
works with keep = the sane backups among the r newest (B ordered by age, all
but the first |B| - r, filtered by the sanity flag) and discard = the
|B| - r oldest, which is the set DeleteAll is called with; no backup of
discard is newer than one of keep. Discard, keep and the insane backups among
the r newest together are exactly B (as a permutation), so keep and discard
are disjoint when B has no duplicates, and keep and discard alone make up B
when all of the r newest backups are sane. The list a run reports as kept is
keep. -/
theorem classify_keep_discard (answer : Bool × Option GoError) (cef : Bool)
    (fails : Backup → Bool) (B : List Backup) (r : Nat) (s : St CleanupWorld) :
    ∃ keep discard,
      ((classify (specCollab answer cef fails) B r).run s).value = some (keep, discard) ∧
      keep = ((sortByAge B).drop ((sortByAge B).length - r)).filter (fun b => b.Sane) ∧
      discard = (sortByAge B).take ((sortByAge B).length - r) ∧
      discard.length = B.length - r ∧
      (∀ d ∈ discard, ∀ b ∈ keep, d.Created ≤ b.Created) ∧
      (∀ (cfg : Config) (d : List Backup), s.world.catalog = B → toUint cfg.retain = r →
        Event.deleteAll d ∈
          ((cleanupRun (specCollab answer cef fails) cfg).run s).newEvents s →
        d = discard) ∧
      (∀ (cfg : Config) (ks : List Backup), s.world.catalog = B → toUint cfg.retain = r →
        Event.logBackups Level.info "Keep the following backups:" ks ∈
          ((cleanupRun (specCollab answer cef fails) cfg).run s).newEvents s →
        ks = keep) ∧
      (discard ++ (keep ++
        (specSeparateBackupsByAge B r).1.filter (fun b => !b.Sane))).Perm B ∧
      (B.Nodup → List.Disjoint keep discard) ∧
      ((∀ b ∈ (specSeparateBackupsByAge B r).1, b.Sane = true) →
        (discard ++ keep).Perm B) := by
  refine ⟨_, _, classify_spec_value answer cef fails B r s, rfl, rfl, ?_, ?_, ?_, ?_, ?_, ?_,
    ?_⟩
  · have hlen : (sortByAge B).length = B.length := List.length_insertionSort _ B
    simp only [specSeparateBackupsByAge, List.length_take, hlen]
    omega
  · intro d hd b hb
    have hsorted := sortByAge_sorted B
    rw [← List.take_append_drop ((sortByAge B).length - r) (sortByAge B)] at hsorted
    exact (List.pairwise_append.mp hsorted).2.2 d hd b (List.mem_of_mem_filter hb)
  · intro cfg d hB hr hmem
    have := cleanupRun_deletes_discard (specCollab answer cef fails) cfg s d hmem
    rw [this, hB, hr]
    rfl
  · intro cfg ks hB hr hmem
    have hks := cleanupRun_reports_keep (specCollab answer cef fails) cfg s ks hmem
    rw [hB, hr] at hks
    obtain ⟨new, -, e1⟩ := classify_run (specCollab answer cef fails) B r s
    have hv := classify_spec_value answer cef fails B r s
    rw [e1] at hv
    simp only [Res.value, Option.some.injEq, Prod.mk.injEq] at hv
    rw [hks, hv.1]
  · refine List.Perm.trans ?_ (specSeparate_perm B r)
    exact List.Perm.append_left _ (List.filter_append_perm _ _)
  · intro hnd
    have hp := specSeparate_perm B r
    have hnd2 := (List.Perm.nodup_iff hp).mpr hnd
    have hdis := (List.nodup_append.mp hnd2).2.2
    intro b hk hd
    exact hdis hd (List.mem_of_mem_filter hk)
  · intro hall
    have hfil : (specSeparateBackupsByAge B r).1.filter (fun b => b.Sane)
        = (specSeparateBackupsByAge B r).1 := by
      rw [List.filter_eq_self]
      exact hall
    rw [hfil]
    exact specSeparate_perm B r

/-- Witness of the amended C7: the spec scenario with retain = 2. The run
keeps B2 and B3, discards B1, reports B2 and B3 as kept, and DeleteAll is
called with B1 only. -/
theorem classify_keep_discard_witness :
    exCatalog.catalog.Nodup ∧
    (∀ b ∈ (specSeparateBackupsByAge exCatalog.catalog 2).1, b.Sane = true) ∧
    (⟨exCatalog, []⟩ : St CleanupWorld).world.catalog = exCatalog.catalog ∧
    toUint (exCleanup 2 true).retain = 2 ∧
    Event.deleteAll [⟨"B1", 1, some "W1", true⟩] ∈
      ((cleanupRun (exCollab true) (exCleanup 2 true)).run ⟨exCatalog, []⟩).newEvents
        ⟨exCatalog, []⟩ ∧
    Event.logBackups Level.info "Keep the following backups:"
        [⟨"B2", 2, some "W3", true⟩, ⟨"B3", 3, some "W5", true⟩] ∈
      ((cleanupRun (exCollab true) (exCleanup 2 true)).run ⟨exCatalog, []⟩).newEvents
        ⟨exCatalog, []⟩ ∧
    ∃ keep discard,
      ((classify (exCollab true) exCatalog.catalog 2).run ⟨exCatalog, []⟩).value
        = some (keep, discard) ∧
      keep = [⟨"B2", 2, some "W3", true⟩, ⟨"B3", 3, some "W5", true⟩] ∧
      discard = [⟨"B1", 1, some "W1", true⟩] ∧
      [⟨"B1", 1, some "W1", true⟩] = discard ∧
      [⟨"B2", 2, some "W3", true⟩, ⟨"B3", 3, some "W5", true⟩] = keep ∧
      List.Disjoint keep discard ∧ (discard ++ keep).Perm exCatalog.catalog := by
  obtain ⟨keep, discard, h1, h2, h3, -, -, h6, h7, -, h8, h9⟩ :=
    classify_keep_discard (true, none) false (fun _ => false) exCatalog.catalog 2
      ⟨exCatalog, []⟩
  have hk : keep = [⟨"B2", 2, some "W3", true⟩, ⟨"B3", 3, some "W5", true⟩] := by
    rw [h2]
    decide
  have hd : discard = [⟨"B1", 1, some "W1", true⟩] := by
    rw [h3]
    decide
  exact ⟨by decide, by decide, rfl, by decide, by decide, by decide, keep, discard, h1, hk,
    hd, h6 (exCleanup 2 true) _ rfl (by decide) (by decide),
    h7 (exCleanup 2 true) _ rfl (by decide) (by decide), h8 (by decide), h9 (by decide)⟩

/-- Counterexample to C7 as stated: two backups, the newer one not sane,
retain = 1. The run keeps nothing and discards B1; B2 is in the catalog but
in neither set. -/
theorem classify_union_counterexample :
    ((classify (exCollab true) exInsane 1).run ⟨⟨exInsane, []⟩, []⟩).value
      = some ([], [⟨"B1", 1, some "W1", true⟩]) ∧
    (⟨"B2", 2, some "W3", false⟩ : Backup) ∈ exInsane ∧
    (⟨"B2", 2, some "W3", false⟩ : Backup) ∉
      ([] : List Backup) ++ [⟨"B1", 1, some "W1", true⟩] := by
  decide

/-! ## archive.go: what each block of `archiveToS3` does -/

theorem stageOps_append (a b : List Event) : stageOps (a ++ b) = stageOps a ++ stageOps b := by
  induction a with
  | nil => rfl
  | cons e rest ih => cases e <;> simp [stageOps, ih]

theorem runs_bind {α β : Type} {m : Prog ArchiveWorld α} {f : α → Prog ArchiveWorld β}
    {ops1 ops2 : List StageOp} (h1 : Runs m ops1) (h2 : ∀ a, Runs (f a) ops2) :
    Runs (m >>= f) (ops1 ++ ops2) := by
  intro s
  obtain ⟨n1, t1, c1⟩ := h1 s
  rw [run_bind]
  cases hm : m.run s with
  | ok a s1 =>
    rw [hm] at t1 c1
    simp only [Res.state] at t1
    obtain ⟨n2, t2, c2⟩ := h2 a s1
    refine ⟨n1 ++ n2, ?_, ?_⟩
    · simp [andThen_ok, t2, t1]
    · rcases c1 with ⟨-, e1⟩ | ⟨hx, -⟩
      · rcases c2 with ⟨hc, e2⟩ | ⟨hc, rest, hrest⟩
        · exact Or.inl ⟨hc, by rw [stageOps_append, e1, e2]⟩
        · exact Or.inr ⟨hc, rest, by rw [stageOps_append, e1, List.append_assoc, hrest]⟩
      · simp [Res.exitCode] at hx
  | exit c s1 =>
    rw [hm] at t1 c1
    refine ⟨n1, by simpa [Res.state] using t1, ?_⟩
    rcases c1 with ⟨hx, -⟩ | ⟨hx, rest, hrest⟩
    · simp [Res.exitCode] at hx
    · exact Or.inr ⟨by simpa [Res.exitCode] using hx, rest ++ ops2,
        by rw [← List.append_assoc, hrest]⟩

theorem s3Bucket_runs (t : Tools) (cfg : Config) : Runs (s3Bucket t cfg) [] := by
  intro s
  simp only [s3Bucket, run_bind, run_emit, run_fatalIf, run_getWorld, run_setWorld, run_ite,
    run_logAt, andThen_ok, andThen_ite, andThen_exit, List.append_assoc]
  split_ifs <;> refine ⟨_, rfl, ?_⟩ <;> simp [Res.exitCode, stageOps]

theorem s3Compress_runs (k : Consts) (t : Tools) (walSource : String) :
    Runs (s3Compress k t walSource) [] := by
  intro s
  simp only [s3Compress, run_bind, run_emit, run_fatalIf, run_ecCheck, run_getWorld, run_pure,
    andThen_ok, andThen_ite, andThen_exit, List.append_assoc]
  split_ifs <;> refine ⟨_, rfl, ?_⟩ <;> simp [Res.exitCode, stageOps]

theorem s3Encrypt_runs (k : Consts) (t : Tools) (cfg : Config) (compressStdout : Bytes) :
    Runs (s3Encrypt k t cfg compressStdout)
      (if cfg.encrypt then [StageOp.start (gpgCmd k cfg)] else []) := by
  intro s
  simp only [s3Encrypt, run_bind, run_emit, run_fatalIf, run_ecCheck, run_logAt, run_pure,
    run_ite, andThen_ok, andThen_ite, andThen_exit, List.append_assoc]
  split_ifs <;>
  first
  | (refine ⟨_, rfl, ?_⟩; simp_all [Res.exitCode, stageOps])
  | (refine ⟨[], by simp [Res.state], ?_⟩; simp_all [Res.exitCode, stageOps])

theorem s3Put_runs (k : Consts) (t : Tools) (cfg : Config) (walSource walName : String)
    (s3Input : Bytes) (contentType : String) :
    Runs (s3Put k t cfg walSource walName s3Input contentType)
      [StageOp.start (compressCmd k walSource), StageOp.put] := by
  intro s
  simp only [s3Put, run_bind, run_emit, run_fatalIf, run_getWorld, run_setWorld, run_logAt,
    andThen_ok, andThen_ite, andThen_exit, List.append_assoc]
  split_ifs <;> refine ⟨_, rfl, ?_⟩ <;> simp [Res.exitCode, stageOps]

theorem s3Wait_runs (k : Consts) (t : Tools) (cfg : Config) (walSource : String) :
    Runs (s3Wait k t cfg walSource)
      ([StageOp.wait (compressCmd k walSource)]
        ++ (if cfg.encrypt then [StageOp.wait (gpgCmd k cfg)] else [])) := by
  intro s
  simp only [s3Wait, run_bind, run_emit, run_fatalIf, run_logAt, run_pure, run_ite,
    andThen_ok, andThen_ite, andThen_exit, List.append_assoc]
  split_ifs <;> refine ⟨_, rfl, ?_⟩ <;> simp_all [Res.exitCode, stageOps]

theorem archiveToS3_runs (k : Consts) (t : Tools) (cfg : Config)
    (walSource walName : String) :
    Runs (archiveToS3 k t cfg walSource walName) (s3Ops k cfg walSource) := by
  have h := runs_bind (s3Bucket_runs t cfg) (fun _ =>
    runs_bind (s3Compress_runs k t walSource) (fun compressStdout =>
      runs_bind (s3Encrypt_runs k t cfg compressStdout) (fun input =>
        runs_bind (s3Put_runs k t cfg walSource walName input.1 input.2) (fun _ =>
          s3Wait_runs k t cfg walSource))))
  simpa [s3Ops] using h

/-! ## C9: the order of Start, PutObject and Wait -/

theorem takeWhile_before_put (starts waits ops rest : List StageOp)
    (hstarts : ∀ o ∈ starts, o ≠ StageOp.put)
    (h : ops ++ rest = starts ++ StageOp.put :: waits) (hput : StageOp.put ∈ ops) :
    ops.takeWhile (fun o => o != StageOp.put) = starts := by
  induction starts generalizing ops with
  | nil =>
    cases ops with
    | nil => simp at hput
    | cons o ops =>
      simp only [List.nil_append, List.cons_append, List.cons.injEq] at h
      simp [h.1]
  | cons a starts ih =>
    cases ops with
    | nil => simp at hput
    | cons o ops =>
      simp only [List.cons_append, List.cons.injEq] at h
      have ha : a ≠ StageOp.put := hstarts a (List.mem_cons_self _ _)
      have hput2 : StageOp.put ∈ ops := by
        rcases List.mem_cons.mp hput with hp | hp
        · exact absurd (h.1 ▸ hp.symm) ha
        · exact hp
      have := ih ops (fun o ho => hstarts o (List.mem_cons_of_mem _ ho)) h.2 hput2
      simp [h.1, ha, this]

/-- Claim C9 as amended: in every run of archiveToS3 the stage operations
are an initial segment of: start gpg (only when encrypt), start zstd,
PutObject, wait zstd, wait gpg (only when encrypt), and all of them when the
function returns. So when PutObject is called every stage has been started
and none awaited; after the write zstd is awaited first and gpg second, which
is the reverse of the order in which they were started. -/
theorem archiveToS3_stage_order (k : Consts) (t : Tools) (cfg : Config)
    (walSource walName : String) (s : St ArchiveWorld) :
    ∃ new, ((archiveToS3 k t cfg walSource walName).run s).state.trace = s.trace ++ new ∧
      stageOps new <+: s3Ops k cfg walSource ∧
      (((archiveToS3 k t cfg walSource walName).run s).exitCode = none →
        stageOps new = s3Ops k cfg walSource) ∧
      (StageOp.put ∈ stageOps new →
        startedCmds ((stageOps new).takeWhile (fun o => o != StageOp.put)) =
          (if cfg.encrypt then [gpgCmd k cfg, compressCmd k walSource]
            else [compressCmd k walSource]) ∧
        awaitedCmds ((stageOps new).takeWhile (fun o => o != StageOp.put)) = []) ∧
      startedCmds (s3Ops k cfg walSource) =
        (if cfg.encrypt then [gpgCmd k cfg, compressCmd k walSource]
          else [compressCmd k walSource]) ∧
      awaitedCmds (s3Ops k cfg walSource) =
        (if cfg.encrypt then [compressCmd k walSource, gpgCmd k cfg]
          else [compressCmd k walSource]) ∧
      awaitedCmds (s3Ops k cfg walSource) = (startedCmds (s3Ops k cfg walSource)).reverse := by
  obtain ⟨new, htrace, hops⟩ := archiveToS3_runs k t cfg walSource walName s
  have hpre : stageOps new <+: s3Ops k cfg walSource := by
    rcases hops with ⟨-, e⟩ | ⟨-, rest, hrest⟩
    · exact ⟨[], by rw [List.append_nil, e]⟩
    · exact ⟨rest, hrest⟩
  refine ⟨new, htrace, hpre, ?_, ?_, ?_, ?_, ?_⟩
  · intro hx
    rcases hops with ⟨-, e⟩ | ⟨hx2, -⟩
    · exact e
    · rw [hx] at hx2
      exact absurd hx2 (by simp)
  · intro hput
    obtain ⟨rest, hrest⟩ := hpre
    have hsplit : s3Ops k cfg walSource =
        ((if cfg.encrypt then [StageOp.start (gpgCmd k cfg)] else [])
          ++ [StageOp.start (compressCmd k walSource)])
        ++ StageOp.put :: ([StageOp.wait (compressCmd k walSource)]
          ++ (if cfg.encrypt then [StageOp.wait (gpgCmd k cfg)] else [])) := by
      simp [s3Ops]
    have htw := takeWhile_before_put _ _ (stageOps new) rest
      (by intro o ho; split_ifs at ho <;> simp at ho <;> rcases ho with rfl | rfl <;> simp)
      (hrest.trans hsplit) hput
    rw [htw]
    split_ifs <;> simp [startedCmds, awaitedCmds]
  · simp only [s3Ops]
    split_ifs <;> simp [startedCmds]
  · simp only [s3Ops]
    split_ifs <;> simp [awaitedCmds]
  · simp only [s3Ops]
    split_ifs <;> simp [startedCmds, awaitedCmds]

/-- Witness of the amended C9: a complete run with encryption. -/
theorem archiveToS3_stage_order_witness :
    ((archiveToS3 exConsts exTools (exConfig "s3" true) "/pg/W1" "W1").run
      ⟨exWorldEmpty, []⟩).exitCode = none ∧
    ∃ new, ((archiveToS3 exConsts exTools (exConfig "s3" true) "/pg/W1" "W1").run
        ⟨exWorldEmpty, []⟩).state.trace = [] ++ new ∧
      StageOp.put ∈ stageOps new ∧
      stageOps new = s3Ops exConsts (exConfig "s3" true) "/pg/W1" ∧
      startedCmds ((stageOps new).takeWhile (fun o => o != StageOp.put)) =
        [gpgCmd exConsts (exConfig "s3" true), compressCmd exConsts "/pg/W1"] := by
  obtain ⟨new, h1, -, h3, h4, -⟩ := archiveToS3_stage_order exConsts exTools
    (exConfig "s3" true) "/pg/W1" "W1" ⟨exWorldEmpty, []⟩
  have hops := h3 (by decide)
  have hput : StageOp.put ∈ stageOps new := by
    rw [hops]
    decide
  exact ⟨by decide, new, h1, hput, hops, (h4 hput).1⟩

/-- Counterexample to C9 as stated: with encryption a complete run starts
gpg, then zstd, and awaits zstd, then gpg: not the order of the starts. -/
theorem archiveToS3_wait_order_counterexample :
    (exConfig "s3" true).encrypt = true ∧
    ((archiveToS3 exConsts exTools (exConfig "s3" true) "/pg/W1" "W1").run
      ⟨exWorldEmpty, []⟩).exitCode = none ∧
    startedCmds (stageOps ((archiveToS3 exConsts exTools (exConfig "s3" true) "/pg/W1" "W1").run
      ⟨exWorldEmpty, []⟩).state.trace) =
        [⟨"gpg", ["--encrypt", "-o", "-", "--recipient", "bob"]⟩,
         ⟨"zstd", ["--stdout", "/pg/W1"]⟩] ∧
    awaitedCmds (stageOps ((archiveToS3 exConsts exTools (exConfig "s3" true) "/pg/W1" "W1").run
      ⟨exWorldEmpty, []⟩).state.trace) =
        [⟨"zstd", ["--stdout", "/pg/W1"]⟩,
         ⟨"gpg", ["--encrypt", "-o", "-", "--recipient", "bob"]⟩] ∧
    awaitedCmds (stageOps ((archiveToS3 exConsts exTools (exConfig "s3" true) "/pg/W1" "W1").run
      ⟨exWorldEmpty, []⟩).state.trace) ≠
    startedCmds (stageOps ((archiveToS3 exConsts exTools (exConfig "s3" true) "/pg/W1" "W1").run
      ⟨exWorldEmpty, []⟩).state.trace) := by
  decide

/-! ## C6: the archive command stops at the first failure -/

theorem exitsOne_bind {W α β : Type} {m : Prog W α} {f : α → Prog W β}
    (h1 : ExitsOne m) (h2 : ∀ a, ExitsOne (f a)) : ExitsOne (m >>= f) := by
  intro s c s1 h
  rw [run_bind] at h
  cases hm : m.run s with
  | ok a s2 =>
    rw [hm, andThen_ok] at h
    exact h2 a s2 c s1 h
  | exit c2 s2 =>
    rw [hm, andThen_exit] at h
    cases h
    exact h1 s c s1 hm

theorem fatalIf_exitsOne {W : Type} (err : Option GoError) (text : String) :
    ExitsOne (fatalIf err text : Prog W Unit) := by
  intro s c s1 h
  rw [run_fatalIf] at h
  split_ifs at h
  cases h
  rfl

theorem ecCheck_exitsOne {W : Type} (err : Option GoError) :
    ExitsOne (ecCheck err : Prog W Unit) :=
  fatalIf_exitsOne err ""

theorem testWalSource_exitsOne (k : Consts) (walSource : String) :
    ExitsOne (testWalSource k walSource) := by
  intro s c s1 h
  simp only [testWalSource, run_bind, run_getWorld, run_emit, andThen_ok] at h
  split at h
  · simp at h
  · split at h
    · simp at h
    · simp only [run_bind, run_emit, andThen_ok] at h
      split at h
      · simp at h
      · simp only [run_ite, run_pure] at h
        split_ifs at h

theorem archiveToFile_exitsOne (k : Consts) (t : Tools) (cfg : Config)
    (walSource walName : String) : ExitsOne (archiveToFile k t cfg walSource walName) := by
  intro s c s1 h
  simp only [archiveToFile, run_bind, run_emit, run_logAt, run_getWorld, run_setWorld,
    run_ecCheck, run_ite, run_pure, andThen_ok, andThen_ite, andThen_exit] at h
  split_ifs at h
  cases h
  rfl

theorem archiveToS3_exitsOne (k : Consts) (t : Tools) (cfg : Config)
    (walSource walName : String) : ExitsOne (archiveToS3 k t cfg walSource walName) := by
  intro s c s1 h
  obtain ⟨new, -, hops⟩ := archiveToS3_runs k t cfg walSource walName s
  rw [h] at hops
  rcases hops with ⟨hx, -⟩ | ⟨hx, -⟩
  · simp [Res.exitCode] at hx
  · simpa [Res.exitCode] using hx

theorem archiveStep_exitsOne (k : Consts) (t : Tools) (cfg : Config) (walSource : String) :
    ExitsOne (archiveStep k t cfg walSource) := by
  refine exitsOne_bind (testWalSource_exitsOne k walSource) (fun err => ?_)
  refine exitsOne_bind (ecCheck_exitsOne err) (fun _ => ?_)
  refine exitsOne_bind ?_ (fun err2 => fatalIf_exitsOne err2 _)
  unfold archiveWal
  split_ifs
  · exact archiveToFile_exitsOne k t cfg walSource _
  · exact archiveToS3_exitsOne k t cfg walSource _
  · intro s c s1 h
    rw [run_logFatal] at h
    cases h
    rfl

/-- Claim C4, evaluated where the code departs from it: the bucket already
holds object W1.zst. archiveWal to s3 returns nil, calls PutObject and
replaces the object; archiveWal to file, with the target file already there,
returns the "already in archive" error and leaves the world as it was. -/
theorem archiveWal_s3_overwrites_existing :
    getObject exWorld "wal" "W1.zst" = some ⟨[9, 9], "pgWAL"⟩ ∧
    ((archiveWal exConsts exTools (exConfig "s3" false) "/pg/W1" "W1").run
      ⟨exWorld, []⟩).value = some none ∧
    Event.putObject "wal" "W1.zst" [0, 1, 2, 3] "pgWAL" ∈
      ((archiveWal exConsts exTools (exConfig "s3" false) "/pg/W1" "W1").run
        ⟨exWorld, []⟩).state.trace ∧
    getObject ((archiveWal exConsts exTools (exConfig "s3" false) "/pg/W1" "W1").run
      ⟨exWorld, []⟩).state.world "wal" "W1.zst" = some ⟨[0, 1, 2, 3], "pgWAL"⟩ ∧
    osStatOk exWorld "/arch/wal/W1.zst" = true ∧
    ((archiveWal exConsts exTools (exConfig "file" false) "/pg/W1" "W1").run
      ⟨exWorld, []⟩).value
      = some (some ⟨"WAL file is already in archive: /arch/wal/W1.zst"⟩) ∧
    ((archiveWal exConsts exTools (exConfig "file" false) "/pg/W1" "W1").run
      ⟨exWorld, []⟩).state.world = exWorld := by
  decide

/-! ## C8: what reaches the sink -/

/-- Claim C8, evaluated where the code departs from it: with encrypt = true,
archiveWal to file runs only zstd and the target file holds compress(source),
not encrypt(compress(source)); archiveToFile does not depend on the encrypt
switch at all. archiveWal to s3 with the same configuration puts
encrypt(compress(source)). -/
theorem archiveWal_file_ignores_encrypt :
    (exConfig "file" true).encrypt = true ∧
    ((archiveWal exConsts exTools (exConfig "file" true) "/pg/W1" "W1").run
      ⟨exWorldEmpty, []⟩).value = some none ∧
    readFile ((archiveWal exConsts exTools (exConfig "file" true) "/pg/W1" "W1").run
      ⟨exWorldEmpty, []⟩).state.world "/arch/wal/W1.zst"
      = some (exTools.compress [1, 2, 3]) ∧
    exTools.compress [1, 2, 3] ≠ exTools.encrypt "bob" (exTools.compress [1, 2, 3]) ∧
    Event.run ⟨"zstd", ["/pg/W1", "-o", "/arch/wal/W1.zst"]⟩ ∈
      ((archiveWal exConsts exTools (exConfig "file" true) "/pg/W1" "W1").run
        ⟨exWorldEmpty, []⟩).state.trace ∧
    stageOps ((archiveWal exConsts exTools (exConfig "file" true) "/pg/W1" "W1").run
      ⟨exWorldEmpty, []⟩).state.trace = [] ∧
    (∀ (k : Consts) (t : Tools) (cfg : Config) (walSource walName : String),
      archiveToFile k t { cfg with encrypt := true } walSource walName =
        archiveToFile k t { cfg with encrypt := false } walSource walName) ∧
    getObject ((archiveWal exConsts exTools (exConfig "s3" true) "/pg/W1" "W1").run
      ⟨exWorldEmpty, []⟩).state.world "wal" "W1.zst"
      = some ⟨exTools.encrypt "bob" (exTools.compress [1, 2, 3]), "pgp"⟩ := by
  refine ⟨rfl, by decide, by decide, by decide, by decide, by decide, ?_, by decide⟩
  intro k t cfg walSource walName
  rfl

end Pgglaskugel
